import Mathlib

/-!
# Steampipe: table autocomplete suggestions and connection validation

A shallow embedding of

* `autocomplete/table.go` (`GetTableAutoCompleteSuggestions`,
  `stripVersionFromPluginName`), and
* `steampipeconfig/connection_validation.go` (`ValidatePlugins`,
  `validateColumnDefVersion`, `validateConnectionName`),

followed by theorems about them.

Modelling conventions.

* A Go `string` is a Lean `String`; comparison of Go strings is byte-wise, which is
  modelled on the UTF-8 encoding (`utf8Bytes`, `stringLe`).
* A Go `map[string]V` is a `GoMap V`: an association list, looked up from the front,
  written by replacing the entry of the key or appending a new one.
* The order in which a `range` loop meets the entries of a map is not fixed by Go.
  A run of `GetTableAutoCompleteSuggestions` is therefore described by a list of
  `SchemaVisit`s: the schemas in the order the outer loop meets them, each with the two
  orders in which the two inner loops meet its tables.
* Pointers are modelled by their targets; the `log.Println` trace is not modelled.
-/

namespace Steampipe

/-! ## Go strings and maps -/

/-- The bytes of a Go string (its UTF-8 encoding), as natural numbers. -/
def utf8Bytes (s : String) : List Nat :=
  s.data.flatMap (fun c => (String.utf8EncodeChar c).map UInt8.toNat)

/-- Lexicographic `<=` on byte sequences: Go's `a <= b` on strings. -/
def bytesLe : List Nat → List Nat → Bool
  | [], _ => true
  | _ :: _, [] => false
  | a :: as, b :: bs => decide (a < b) || (a == b && bytesLe as bs)

/-- Go's `a <= b` on strings: byte-wise lexicographic comparison. -/
def stringLe (a b : String) : Bool := bytesLe (utf8Bytes a) (utf8Bytes b)

/-- The relation `sort.Strings` sorts by. -/
def StringLE (a b : String) : Prop := stringLe a b = true

instance : DecidableRel StringLE := fun a b => inferInstanceAs (Decidable (stringLe a b = true))

/-- Go's `sort.Strings`: the result is the input in increasing byte-wise order.
The standard library sort is modelled by insertion sort. -/
def sortStrings (l : List String) : List String := l.insertionSort StringLE

/-- A Go `map[string]V`, as an association list. -/
abbrev GoMap (V : Type) := List (String × V)

/-- The comma-ok lookup `v, ok := m[k]`: `none` when `k` is not a key. -/
def GoMap.get? {V : Type} (m : GoMap V) (k : String) : Option V :=
  match m with
  | [] => none
  | (k', v) :: rest => if k' = k then some v else GoMap.get? rest k

/-- The assignment `m[k] = v`. -/
def GoMap.set {V : Type} (m : GoMap V) (k : String) (v : V) : GoMap V :=
  match m with
  | [] => [(k, v)]
  | (k', v') :: rest => if k' = k then (k, v) :: rest else (k', v') :: GoMap.set rest k v

/-- `helpers.StringSliceContains(slice, s)` of go-kit. -/
def StringSliceContains (slice : List String) (s : String) : Bool :=
  slice.any (fun x => decide (x = s))

/-- `strings.Split(s, sep)` for a separator of one character, on the characters of `s`:
the pieces between the occurrences of `sep`. -/
def splitChars (sep : Char) : List Char → List (List Char)
  | [] => [[]]
  | c :: cs =>
    if c = sep then [] :: splitChars sep cs
    else
      match splitChars sep cs with
      | [] => [[c]]
      | p :: ps => (c :: p) :: ps

/-- `strings.Split(s, "@")`. -/
def stringsSplitAt (s : String) : List String := (splitChars '@' s.data).map String.mk

/-! ## `autocomplete/table.go` -/

/-- The function `stripVersionFromPluginName`: `strings.Split(pluginName, "@")[0]`. -/
def stripVersionFromPluginName (pluginName : String) : String :=
  ((stringsSplitAt pluginName)[0]?).getD ""

/-- A value of the connection map; only its `Plugin` field is read here. -/
structure Connection where
  Plugin : String
  deriving DecidableEq, Repr

/-- The type `steampipeconfig.ConnectionMap`. -/
abbrev ConnectionMap := GoMap Connection

/-- One entry of `schema.Schemas` as a run meets it: the key, and its tables in the order
of the loop that builds the qualified names (`qualifiedOrder`) and in the order of the
loop that builds the unqualified names (`unqualifiedOrder`). -/
structure SchemaVisit where
  schemaName : String
  qualifiedOrder : List String
  unqualifiedOrder : List String
  deriving DecidableEq, Repr

/-- The type `schema.Metadata`, with `Schemas` in the order of one run. -/
structure Metadata where
  Schemas : List SchemaVisit
  SearchPath : List String
  TemporarySchemaName : String
  deriving Repr

/-- The type `prompt.Suggest`. -/
structure Suggest where
  Text : String
  Description : String
  deriving DecidableEq, Repr

/-- The local variables of `GetTableAutoCompleteSuggestions` that the loop over the
schemas updates. -/
structure LoopState where
  schemasToAdd : List String
  unqualifiedTablesToAdd : List String
  qualifiedTablesToAdd : List String
  pluginSchemaMap : GoMap Bool
  deriving Repr

/-- The variables before the loop. -/
def LoopState.init : LoopState := ⟨[], [], [], []⟩

/-- The value `pluginSchemaMap[k]`: `false` when `k` is not a key. -/
def marked (m : GoMap Bool) (k : String) : Bool := (m.get? k).getD false

/-- The variable `pluginOfThisSchema`: the stripped plugin name of the schema's
connection, the empty string when it has none. -/
def pluginOfThisSchema (connectionMap : ConnectionMap) (schemaName : String) : String :=
  match connectionMap.get? schemaName with
  | some schemaConnection => stripVersionFromPluginName schemaConnection.Plugin
  | none => ""

/-- The variable `hasConnectionForSchema`. -/
def hasConnectionForSchema (connectionMap : ConnectionMap) (schemaName : String) : Bool :=
  (connectionMap.get? schemaName).isSome

/-- The variable `schemaOfSamePluginIncluded`. -/
def schemaOfSamePluginIncluded (connectionMap : ConnectionMap) (pluginSchemaMap : GoMap Bool)
    (schemaName : String) : Bool :=
  hasConnectionForSchema connectionMap schemaName &&
    marked pluginSchemaMap (pluginOfThisSchema connectionMap schemaName)

/-- The condition of the `if` that guards the unqualified names. -/
def addsUnqualified (schema : Metadata) (connectionMap : ConnectionMap)
    (pluginSchemaMap : GoMap Bool) (schemaName : String) : Bool :=
  (StringSliceContains schema.SearchPath schemaName ||
      decide (schemaName = schema.TemporarySchemaName)) &&
    !schemaOfSamePluginIncluded connectionMap pluginSchemaMap schemaName

/-- The loop over the tables that appends the qualified names. -/
def qualifiedLoop (isTemporarySchema : Bool) (schemaName : String)
    (acc : List String) (tables : List String) : List String :=
  tables.foldl
    (fun acc tableName =>
      if !isTemporarySchema then acc ++ [schemaName ++ "." ++ tableName] else acc)
    acc

/-- The loop over the tables that appends the unqualified names and marks the plugin. -/
def unqualifiedLoop (isTemporarySchema : Bool) (plugin : String)
    (acc : List String × GoMap Bool) (tables : List String) : List String × GoMap Bool :=
  tables.foldl
    (fun acc tableName =>
      (acc.1 ++ [tableName], if !isTemporarySchema then acc.2.set plugin true else acc.2))
    acc

/-- The body of the loop over `schema.Schemas`, for one schema. -/
def visitSchema (schema : Metadata) (connectionMap : ConnectionMap)
    (st : LoopState) (v : SchemaVisit) : LoopState :=
  let isTemporarySchema := decide (v.schemaName = schema.TemporarySchemaName)
  let plugin := pluginOfThisSchema connectionMap v.schemaName
  let schemasToAdd :=
    if !isTemporarySchema then st.schemasToAdd ++ [v.schemaName] else st.schemasToAdd
  let qualifiedTablesToAdd :=
    qualifiedLoop isTemporarySchema v.schemaName st.qualifiedTablesToAdd v.qualifiedOrder
  let un :=
    if addsUnqualified schema connectionMap st.pluginSchemaMap v.schemaName then
      unqualifiedLoop isTemporarySchema plugin
        (st.unqualifiedTablesToAdd, st.pluginSchemaMap) v.unqualifiedOrder
    else (st.unqualifiedTablesToAdd, st.pluginSchemaMap)
  ⟨schemasToAdd, un.1, qualifiedTablesToAdd, un.2⟩

/-- The loop over `schema.Schemas`, started from `st`. -/
def visitSchemas (schema : Metadata) (connectionMap : ConnectionMap)
    (st : LoopState) (visits : List SchemaVisit) : LoopState :=
  visits.foldl (visitSchema schema connectionMap) st

/-- The three lists as they stand after the loop over `schema.Schemas`. -/
def collect (schema : Metadata) (connectionMap : ConnectionMap) : LoopState :=
  visitSchemas schema connectionMap LoopState.init schema.Schemas

/-- One of the three final loops: append a suggestion per text. -/
def appendSuggestions (description : String) (s : List Suggest) (texts : List String) :
    List Suggest :=
  texts.foldl (fun s text => s ++ [⟨text, description⟩]) s

/-- The function `GetTableAutoCompleteSuggestions`. -/
def GetTableAutoCompleteSuggestions (schema : Metadata) (connectionMap : ConnectionMap) :
    List Suggest :=
  let st := collect schema connectionMap
  let schemasToAdd := sortStrings st.schemasToAdd
  let unqualifiedTablesToAdd := sortStrings st.unqualifiedTablesToAdd
  let qualifiedTablesToAdd := sortStrings st.qualifiedTablesToAdd
  let s := appendSuggestions "Schema" [] schemasToAdd
  let s := appendSuggestions "Table" s unqualifiedTablesToAdd
  appendSuggestions "Table" s qualifiedTablesToAdd

/-- The example of the specification, in one order of traversal. -/
def exampleMetadata : Metadata :=
  { Schemas :=
      [⟨"aws", ["ec2", "s3"], ["ec2", "s3"]⟩, ⟨"gcp", ["buckets"], ["buckets"]⟩,
       ⟨"pg_temp", ["scratch"], ["scratch"]⟩]
    SearchPath := ["aws"]
    TemporarySchemaName := "pg_temp" }

/-- The connections of the example of the specification. -/
def exampleConnections : ConnectionMap :=
  [("aws", ⟨"pluginA"⟩), ("gcp", ⟨"pluginB"⟩)]

/-- The same logical entry of `schema.Schemas` met in two runs: the same key and the same
tables, in any order. -/
def SameTables (a b : SchemaVisit) : Prop :=
  a.schemaName = b.schemaName ∧ a.qualifiedOrder.Perm b.qualifiedOrder ∧
    a.unqualifiedOrder.Perm b.unqualifiedOrder

/-- Two runs on the same logical input: the same search path, the same temporary schema
name, and the same schemas map, traversed in any two orders. -/
def Metadata.SameInput (m₁ m₂ : Metadata) : Prop :=
  m₁.SearchPath = m₂.SearchPath ∧ m₁.TemporarySchemaName = m₂.TemporarySchemaName ∧
    ∃ l : List SchemaVisit, l.Perm m₁.Schemas ∧ List.Forall₂ SameTables l m₂.Schemas

/-- The traversal comes from Go maps: the schema names are distinct, and the two inner
loops of a schema meet the same distinct table names. -/
def Metadata.WellFormed (m : Metadata) : Prop :=
  (m.Schemas.map SchemaVisit.schemaName).Nodup ∧
    ∀ v ∈ m.Schemas, v.qualifiedOrder.Nodup ∧ v.unqualifiedOrder.Perm v.qualifiedOrder

/-- The texts of the first group of the result: the sorted schema names. -/
def schemaGroup (schema : Metadata) (connectionMap : ConnectionMap) : List String :=
  sortStrings (collect schema connectionMap).schemasToAdd

/-- The texts of the second group of the result: the sorted unqualified table names. -/
def unqualifiedGroup (schema : Metadata) (connectionMap : ConnectionMap) : List String :=
  sortStrings (collect schema connectionMap).unqualifiedTablesToAdd

/-- The texts of the third group of the result: the sorted qualified table names. -/
def qualifiedGroup (schema : Metadata) (connectionMap : ConnectionMap) : List String :=
  sortStrings (collect schema connectionMap).qualifiedTablesToAdd

/-- What the visit of one schema appends to `unqualifiedTablesToAdd` when the plugins
marked so far are `pluginSchemaMap`. -/
def unqualifiedContribution (schema : Metadata) (connectionMap : ConnectionMap)
    (pluginSchemaMap : GoMap Bool) (v : SchemaVisit) : List String :=
  if addsUnqualified schema connectionMap pluginSchemaMap v.schemaName then v.unqualifiedOrder
  else []

/-- What the visit of one schema appends to `qualifiedTablesToAdd`. -/
def qualifiedContribution (schema : Metadata) (v : SchemaVisit) : List String :=
  if v.schemaName = schema.TemporarySchemaName then []
  else v.qualifiedOrder.map (fun tableName => v.schemaName ++ "." ++ tableName)

/-- The pairs of a schema name and a table name from which the loop builds a qualified
name, in the order of the run. -/
def qualifiedPairs (schema : Metadata) : List (String × String) :=
  schema.Schemas.flatMap (fun v =>
    if v.schemaName = schema.TemporarySchemaName then []
    else v.qualifiedOrder.map (fun tableName => (v.schemaName, tableName)))

/-- Two schemas whose qualified table names collide: `a` with the table `b.c`, and `a.b`
with the table `c`. -/
def dottedMetadata : Metadata :=
  { Schemas := [⟨"a", ["b.c"], ["b.c"]⟩, ⟨"a.b", ["c"], ["c"]⟩]
    SearchPath := []
    TemporarySchemaName := "pg_temp" }

/-- Two schemas of the search path with the same plugin, the first of them without
tables. -/
def emptyFirstMetadata : Metadata :=
  { Schemas := [⟨"a", [], []⟩, ⟨"b", ["t"], ["t"]⟩]
    SearchPath := ["a", "b"]
    TemporarySchemaName := "pg_temp" }

/-- Connections of `emptyFirstMetadata`: two versions of one plugin. -/
def emptyFirstConnections : ConnectionMap := [("a", ⟨"p@1"⟩), ("b", ⟨"p@2"⟩)]

/-- A schema of the search path, then the temporary schema. -/
def tempWithConnectionMetadata : Metadata :=
  { Schemas := [⟨"aws", ["ec2"], ["ec2"]⟩, ⟨"pg_temp", ["scratch"], ["scratch"]⟩]
    SearchPath := ["aws"]
    TemporarySchemaName := "pg_temp" }

/-- Connections of `tempWithConnectionMetadata`: the temporary schema has an entry, with
the plugin of `aws`. -/
def tempWithConnectionConnections : ConnectionMap := [("aws", ⟨"p"⟩), ("pg_temp", ⟨"p"⟩)]

/-- Two schemas of the search path with the same plugin, `a` met before `b`. -/
def sharedPluginMetadata : Metadata :=
  { Schemas := [⟨"a", ["x"], ["x"]⟩, ⟨"b", ["y"], ["y"]⟩]
    SearchPath := ["a", "b"]
    TemporarySchemaName := "pg_temp" }

/-- The input of `sharedPluginMetadata`, with `b` met before `a`. -/
def sharedPluginMetadataSwapped : Metadata :=
  { Schemas := [⟨"b", ["y"], ["y"]⟩, ⟨"a", ["x"], ["x"]⟩]
    SearchPath := ["a", "b"]
    TemporarySchemaName := "pg_temp" }

/-- Connections of `sharedPluginMetadata`: two versions of one plugin. -/
def sharedPluginConnections : ConnectionMap := [("a", ⟨"p@1"⟩), ("b", ⟨"p@2"⟩)]

/-- The example of the specification, in another order of traversal. -/
def exampleMetadataReordered : Metadata :=
  { Schemas :=
      [⟨"pg_temp", ["scratch"], ["scratch"]⟩, ⟨"gcp", ["buckets"], ["buckets"]⟩,
       ⟨"aws", ["s3", "ec2"], ["ec2", "s3"]⟩]
    SearchPath := ["aws"]
    TemporarySchemaName := "pg_temp" }

/-- The result that the specification expects for its example. -/
def exampleExpected : List Suggest :=
  [⟨"aws", "Schema"⟩, ⟨"gcp", "Schema"⟩, ⟨"ec2", "Table"⟩, ⟨"s3", "Table"⟩,
   ⟨"scratch", "Table"⟩, ⟨"aws.ec2", "Table"⟩, ⟨"aws.s3", "Table"⟩,
   ⟨"gcp.buckets", "Table"⟩]

/-- A schema `odd` whose plugin name strips to the empty string, then the schema `public`
that has no connection; both are in the search path. -/
def publicMetadata : Metadata :=
  { Schemas := [⟨"odd", ["o"], ["o"]⟩, ⟨"public", ["users"], ["users"]⟩]
    SearchPath := ["odd", "public"]
    TemporarySchemaName := "pg_temp" }

/-- Connections of `publicMetadata`: `public` has none. -/
def publicConnections : ConnectionMap := [("odd", ⟨"@1"⟩)]

/-! ## `steampipeconfig/connection_validation.go` -/

/-- The type `ValidationFailure`. -/
structure ValidationFailure where
  Plugin : String
  ConnectionName : String
  Message : String
  ShouldDropIfExists : Bool
  deriving DecidableEq, Repr

/-- The fields of a `ConnectionPlugin` that validation reads; `ProtocolVersion` is the
value of `p.Schema.GetProtocolVersion()`. -/
structure ConnectionPlugin where
  ConnectionName : String
  PluginName : String
  ProtocolVersion : Int
  deriving DecidableEq, Repr

/-- The zero value of the values of a connection map. -/
instance : Inhabited Connection := ⟨⟨""⟩⟩

/-- The function `validateConnectionName`; the constant
`constants.ReservedConnectionNames` is a parameter. -/
def validateConnectionName (ReservedConnectionNames : List String) (p : ConnectionPlugin) :
    Option ValidationFailure :=
  if StringSliceContains ReservedConnectionNames p.ConnectionName then
    some
      { Plugin := p.PluginName
        ConnectionName := p.ConnectionName
        Message :=
          "Connection name cannot be one of " ++ ",".intercalate ReservedConnectionNames
        ShouldDropIfExists := false }
  else none

/-- The function `validateColumnDefVersion`; the constant `sdkversion.ProtocolVersion`
is the parameter `steampipeProtocolVersion`. -/
def validateColumnDefVersion (steampipeProtocolVersion : Int) (p : ConnectionPlugin) :
    Option ValidationFailure :=
  let pluginProtocolVersion := p.ProtocolVersion
  if pluginProtocolVersion = 0 then none
  else if steampipeProtocolVersion < pluginProtocolVersion then
    some
      { Plugin := p.PluginName
        ConnectionName := p.ConnectionName
        Message := "Incompatible steampipe-plugin-sdk version. Please upgrade Steampipe."
        ShouldDropIfExists := true }
  else none

/-- The failure that `validateConnectionName` returns for `p` when its name is
reserved. -/
def reservedNameFailure (ReservedConnectionNames : List String) (p : ConnectionPlugin) :
    ValidationFailure :=
  { Plugin := p.PluginName
    ConnectionName := p.ConnectionName
    Message := "Connection name cannot be one of " ++ ",".intercalate ReservedConnectionNames
    ShouldDropIfExists := false }

/-- The failure that `validateColumnDefVersion` returns for `p` when the host is older
than the plugin. -/
def incompatibleVersionFailure (p : ConnectionPlugin) : ValidationFailure :=
  { Plugin := p.PluginName
    ConnectionName := p.ConnectionName
    Message := "Incompatible steampipe-plugin-sdk version. Please upgrade Steampipe."
    ShouldDropIfExists := true }

/-- The three results of `ValidatePlugins` while the loop runs. -/
structure ValidationState where
  validationFailures : List ValidationFailure
  validatedUpdates : ConnectionMap
  validatedPlugins : List ConnectionPlugin
  deriving Repr

/-- The body of the loop of `ValidatePlugins`, for one plugin. -/
def validatePlugin (steampipeProtocolVersion : Int) (ReservedConnectionNames : List String)
    (updates : ConnectionMap) (st : ValidationState) (p : ConnectionPlugin) :
    ValidationState :=
  match validateColumnDefVersion steampipeProtocolVersion p with
  | some validationFailure =>
    { st with validationFailures := st.validationFailures ++ [validationFailure] }
  | none =>
    match validateConnectionName ReservedConnectionNames p with
    | some validationFailure =>
      { st with validationFailures := st.validationFailures ++ [validationFailure] }
    | none =>
      { st with
        validatedPlugins := st.validatedPlugins ++ [p]
        validatedUpdates :=
          st.validatedUpdates.set p.ConnectionName
            ((updates.get? p.ConnectionName).getD default) }

/-- The function `ValidatePlugins`. -/
def ValidatePlugins (steampipeProtocolVersion : Int) (ReservedConnectionNames : List String)
    (updates : ConnectionMap) (plugins : List ConnectionPlugin) : ValidationState :=
  plugins.foldl (validatePlugin steampipeProtocolVersion ReservedConnectionNames updates)
    ⟨[], [], []⟩

/-- The first check of `ValidatePlugins` passes for `p`. -/
def passesProtocolCheck (steampipeProtocolVersion : Int) (p : ConnectionPlugin) : Bool :=
  (validateColumnDefVersion steampipeProtocolVersion p).isNone

/-- The second check of `ValidatePlugins` passes for `p`. -/
def passesNameCheck (ReservedConnectionNames : List String) (p : ConnectionPlugin) : Bool :=
  (validateConnectionName ReservedConnectionNames p).isNone

/-- The failure that the loop of `ValidatePlugins` records for `p`, if any: that of the
first check when it fails, else that of the second. -/
def failureOf (steampipeProtocolVersion : Int) (ReservedConnectionNames : List String)
    (p : ConnectionPlugin) : Option ValidationFailure :=
  (validateColumnDefVersion steampipeProtocolVersion p).orElse
    (fun _ => validateConnectionName ReservedConnectionNames p)

/-- The method `String` of `ValidationFailure`: the format
`"Connection: %s\nPlugin:     %s\nError:      %s"` filled with the connection name, the
plugin and the message. -/
def ValidationFailure_String (v : ValidationFailure) : String :=
  "Connection: " ++ v.ConnectionName ++ "\nPlugin:     " ++ v.Plugin ++ "\nError:      " ++
    v.Message

/-- Modelled from the spec: `utils.Pluralize` is not among the sources; the specification
asks for the correct pluralization of "connection"/"connections", so the word is the base
for the count 1 and the base followed by `s` for every other count. -/
def Pluralize (base : String) (count : Nat) : String :=
  if count = 1 then base else base ++ "s"

/-- The loop of `BuildValidationWarningString` that renders the failures. -/
def warningsStrings (failures : List ValidationFailure) : List String :=
  failures.foldl (fun acc failure => acc ++ [ValidationFailure_String failure]) []

/-- The function `BuildValidationWarningString`. The colouring `constants.Red` and the
helper `utils.Pluralize` are the parameters `Red` and `pluralize`; `%d` is the decimal
numeral of the count. -/
def BuildValidationWarningString (Red : String → String) (pluralize : String → Nat → String)
    (failures : List ValidationFailure) : String :=
  if failures.length = 0 then ""
  else
    let failureCount := failures.length
    "\n" ++ Red "Validation Errors" ++ ":\n\n" ++ "\n\n".intercalate (warningsStrings failures) ++
      "\n\n" ++ toString failureCount ++ " " ++ pluralize "connection" failureCount ++
      " was not imported.\n"

/-- The parts of a `version.Version` of go-version that matter here: the numeric segments
that `Segments()` returns and the prerelease tag. -/
structure Version where
  segments : List Int
  prerelease : String
  deriving DecidableEq, Repr

/-- The function `validateIgnoringPrerelease`; `none` is the panic of an index out of
range. The second conjunct is evaluated only when the first one holds. -/
def validateIgnoringPrerelease (pluginSdkVersion steampipeSdkVersion : Version) :
    Option Bool := do
  let pluginSegments := pluginSdkVersion.segments
  let steampipeSegments := steampipeSdkVersion.segments
  let p0 ← pluginSegments[0]?
  let s0 ← steampipeSegments[0]?
  if p0 ≤ s0 then
    let p1 ← pluginSegments[1]?
    let s1 ← steampipeSegments[1]?
    pure (decide (p1 ≤ s1))
  else pure false

/-- The segments are greater than a version of zeros only, from the left. -/
def segmentsAboveZero : List Int → Bool
  | [] => false
  | a :: as => decide (0 < a) || (a == 0 && segmentsAboveZero as)

/-- The segments are less than a version of zeros only, from the left. -/
def segmentsBelowZero : List Int → Bool
  | [] => false
  | b :: bs => decide (b < 0) || (b == 0 && segmentsBelowZero bs)

/-- The order the comment of `validateIgnoringPrerelease` speaks of, on the numeric
segments: the first list is greater than the second, segment by segment from the left, a
missing segment counting as 0. -/
def segmentsGreater : List Int → List Int → Bool
  | [], bs => segmentsBelowZero bs
  | a :: as, [] => segmentsAboveZero (a :: as)
  | a :: as, b :: bs => decide (b < a) || (a == b && segmentsGreater as bs)

/-- The plugin version is greater than the Steampipe version, prerelease tags ignored. -/
def versionGreaterIgnoringPrerelease (pluginSdkVersion steampipeSdkVersion : Version) : Bool :=
  segmentsGreater pluginSdkVersion.segments steampipeSdkVersion.segments

/-- The keys of a Go map. -/
def GoMap.keys {V : Type} (m : GoMap V) : List String := m.map Prod.fst

/-! ## The order of `sort.Strings` -/

theorem bytesLe_total : ∀ a b : List Nat, bytesLe a b = true ∨ bytesLe b a = true
  | [], _ => Or.inl (by simp [bytesLe])
  | _ :: _, [] => Or.inr (by simp [bytesLe])
  | a :: as, b :: bs => by
    rcases Nat.lt_trichotomy a b with h | h | h
    · left; simp [bytesLe, h]
    · subst h
      rcases bytesLe_total as bs with h | h
      · left; simp [bytesLe, h]
      · right; simp [bytesLe, h]
    · right; simp [bytesLe, h]

theorem bytesLe_trans :
    ∀ a b c : List Nat, bytesLe a b = true → bytesLe b c = true → bytesLe a c = true
  | [], _, _ => fun _ _ => by simp [bytesLe]
  | _ :: _, [], _ => fun h _ => by simp [bytesLe] at h
  | _ :: _, _ :: _, [] => fun _ h => by simp [bytesLe] at h
  | a :: as, b :: bs, c :: cs => fun h₁ h₂ => by
    simp only [bytesLe, Bool.or_eq_true, decide_eq_true_eq, Bool.and_eq_true,
      beq_iff_eq] at h₁ h₂ ⊢
    rcases h₁ with h₁ | ⟨h₁, h₁'⟩
    · rcases h₂ with h₂ | ⟨h₂, _⟩
      · exact Or.inl (lt_trans h₁ h₂)
      · exact Or.inl (h₂ ▸ h₁)
    · rcases h₂ with h₂ | ⟨h₂, h₂'⟩
      · exact Or.inl (h₁ ▸ h₂)
      · exact Or.inr ⟨h₁.trans h₂, bytesLe_trans as bs cs h₁' h₂'⟩

theorem stringLE_total : IsTotal String StringLE :=
  ⟨fun a b => bytesLe_total (utf8Bytes a) (utf8Bytes b)⟩

theorem stringLE_trans : IsTrans String StringLE :=
  ⟨fun a b c => bytesLe_trans (utf8Bytes a) (utf8Bytes b) (utf8Bytes c)⟩

theorem sortStrings_sorted (l : List String) : (sortStrings l).Sorted StringLE :=
  @List.sorted_insertionSort String StringLE _ stringLE_total stringLE_trans l

theorem sortStrings_perm (l : List String) : (sortStrings l).Perm l :=
  List.perm_insertionSort StringLE l

/-! ## The final loops -/

theorem appendSuggestions_eq (description : String) (texts : List String) :
    ∀ s : List Suggest,
      appendSuggestions description s texts =
        s ++ texts.map (fun text => (⟨text, description⟩ : Suggest)) := by
  induction texts with
  | nil => intro s; simp [appendSuggestions]
  | cons t ts ih =>
    intro s
    have h := ih (s ++ [⟨t, description⟩])
    simp only [appendSuggestions, List.foldl_cons] at h ⊢
    rw [h]; simp

theorem getTableAutoCompleteSuggestions_eq (schema : Metadata) (connectionMap : ConnectionMap) :
    GetTableAutoCompleteSuggestions schema connectionMap =
      (schemaGroup schema connectionMap).map (fun text => (⟨text, "Schema"⟩ : Suggest)) ++
        (unqualifiedGroup schema connectionMap).map (fun text => (⟨text, "Table"⟩ : Suggest)) ++
        (qualifiedGroup schema connectionMap).map (fun text => (⟨text, "Table"⟩ : Suggest)) := by
  simp [GetTableAutoCompleteSuggestions, appendSuggestions_eq, schemaGroup, unqualifiedGroup,
    qualifiedGroup]

/-! ## `strings.Split` -/

theorem splitChars_ne_nil (sep : Char) : ∀ l : List Char, splitChars sep l ≠ []
  | [] => by simp [splitChars]
  | c :: cs => by
    unfold splitChars
    by_cases h : c = sep
    · simp [h]
    · rw [if_neg h]
      cases splitChars sep cs <;> simp

/-- The index 0 of `strings.Split(pluginName, "@")` is in range: the read in
`stripVersionFromPluginName` finds an element. -/
theorem stringsSplitAt_zero (pluginName : String) :
    (stringsSplitAt pluginName)[0]? = some (stripVersionFromPluginName pluginName) := by
  unfold stripVersionFromPluginName stringsSplitAt
  cases h : splitChars '@' pluginName.data with
  | nil => exact absurd h (splitChars_ne_nil '@' pluginName.data)
  | cons p ps => simp

/-! ## Go maps -/

theorem GoMap.get?_set_self {V : Type} (m : GoMap V) (k : String) (v : V) :
    (m.set k v).get? k = some v := by
  induction m with
  | nil => simp [GoMap.set, GoMap.get?]
  | cons e rest ih =>
    obtain ⟨k', v'⟩ := e
    by_cases h : k' = k
    · simp [GoMap.set, GoMap.get?, h]
    · simp [GoMap.set, GoMap.get?, h, ih]

theorem GoMap.get?_set_of_ne {V : Type} (m : GoMap V) (k j : String) (v : V) (h : j ≠ k) :
    (m.set k v).get? j = m.get? j := by
  induction m with
  | nil => simp [GoMap.set, GoMap.get?, h.symm]
  | cons e rest ih =>
    obtain ⟨k', v'⟩ := e
    by_cases hk : k' = k
    · subst hk
      simp [GoMap.set, GoMap.get?, h.symm]
    · by_cases hj : k' = j
      · subst hj
        simp [GoMap.set, GoMap.get?, hk]
      · simp [GoMap.set, GoMap.get?, hk, hj, ih]

theorem marked_set (m : GoMap Bool) (k j : String) :
    marked (m.set k true) j = (decide (j = k) || marked m j) := by
  by_cases h : j = k
  · subst h; simp [marked, GoMap.get?_set_self]
  · simp [marked, GoMap.get?_set_of_ne m k j true h, h]

/-! ## The loop over the schemas -/

theorem qualifiedLoop_eq (isTemporarySchema : Bool) (schemaName : String)
    (tables : List String) :
    ∀ acc : List String,
      qualifiedLoop isTemporarySchema schemaName acc tables =
        acc ++ (if isTemporarySchema then []
          else tables.map (fun tableName => schemaName ++ "." ++ tableName)) := by
  induction tables with
  | nil => intro acc; cases isTemporarySchema <;> simp [qualifiedLoop]
  | cons t ts ih =>
    intro acc
    have h := ih (if !isTemporarySchema then acc ++ [schemaName ++ "." ++ t] else acc)
    simp only [qualifiedLoop, List.foldl_cons] at h ⊢
    rw [h]
    cases isTemporarySchema <;> simp

theorem unqualifiedLoop_fst (isTemporarySchema : Bool) (plugin : String)
    (tables : List String) :
    ∀ acc : List String × GoMap Bool,
      (unqualifiedLoop isTemporarySchema plugin acc tables).1 = acc.1 ++ tables := by
  induction tables with
  | nil => intro acc; simp [unqualifiedLoop]
  | cons t ts ih =>
    intro acc
    have h := ih (acc.1 ++ [t], if !isTemporarySchema then acc.2.set plugin true else acc.2)
    simp only [unqualifiedLoop, List.foldl_cons] at h ⊢
    rw [h]; simp

theorem unqualifiedLoop_marked (isTemporarySchema : Bool) (plugin k : String)
    (tables : List String) :
    ∀ acc : List String × GoMap Bool,
      marked (unqualifiedLoop isTemporarySchema plugin acc tables).2 k =
        (marked acc.2 k ||
          (!isTemporarySchema && !tables.isEmpty && decide (k = plugin))) := by
  induction tables with
  | nil => intro acc; simp [unqualifiedLoop]
  | cons t ts ih =>
    intro acc
    have h := ih (acc.1 ++ [t], if !isTemporarySchema then acc.2.set plugin true else acc.2)
    simp only [unqualifiedLoop, List.foldl_cons] at h ⊢
    rw [h]
    cases isTemporarySchema
    · simp only [Bool.not_false, if_true, marked_set]
      cases marked acc.2 k <;> cases ts <;> simp
    · simp

theorem visitSchema_schemasToAdd (schema : Metadata) (connectionMap : ConnectionMap)
    (st : LoopState) (v : SchemaVisit) :
    (visitSchema schema connectionMap st v).schemasToAdd =
      st.schemasToAdd ++
        (if v.schemaName = schema.TemporarySchemaName then [] else [v.schemaName]) := by
  by_cases h : v.schemaName = schema.TemporarySchemaName <;> simp [visitSchema, h]

theorem visitSchema_qualified (schema : Metadata) (connectionMap : ConnectionMap)
    (st : LoopState) (v : SchemaVisit) :
    (visitSchema schema connectionMap st v).qualifiedTablesToAdd =
      st.qualifiedTablesToAdd ++ qualifiedContribution schema v := by
  by_cases h : v.schemaName = schema.TemporarySchemaName <;>
    simp [visitSchema, qualifiedLoop_eq, qualifiedContribution, h]

theorem visitSchema_unqualified (schema : Metadata) (connectionMap : ConnectionMap)
    (st : LoopState) (v : SchemaVisit) :
    (visitSchema schema connectionMap st v).unqualifiedTablesToAdd =
      st.unqualifiedTablesToAdd ++
        unqualifiedContribution schema connectionMap st.pluginSchemaMap v := by
  by_cases h : addsUnqualified schema connectionMap st.pluginSchemaMap v.schemaName = true <;>
    simp [visitSchema, unqualifiedContribution, unqualifiedLoop_fst, h]

/-- One visit marks the plugin of the schema exactly when the schema is not the temporary
one, passes the guard of the unqualified names and has a table; no mark is removed. -/
theorem visitSchema_marked (schema : Metadata) (connectionMap : ConnectionMap)
    (st : LoopState) (v : SchemaVisit) (k : String) :
    marked (visitSchema schema connectionMap st v).pluginSchemaMap k =
      (marked st.pluginSchemaMap k ||
        (addsUnqualified schema connectionMap st.pluginSchemaMap v.schemaName &&
          !decide (v.schemaName = schema.TemporarySchemaName) &&
          !v.unqualifiedOrder.isEmpty &&
          decide (k = pluginOfThisSchema connectionMap v.schemaName))) := by
  by_cases h : addsUnqualified schema connectionMap st.pluginSchemaMap v.schemaName = true
  · simp [visitSchema, h, unqualifiedLoop_marked]
  · simp [visitSchema, h]

theorem visitSchemas_append (schema : Metadata) (connectionMap : ConnectionMap)
    (st : LoopState) (l₁ l₂ : List SchemaVisit) :
    visitSchemas schema connectionMap st (l₁ ++ l₂) =
      visitSchemas schema connectionMap (visitSchemas schema connectionMap st l₁) l₂ := by
  simp [visitSchemas]

theorem visitSchemas_cons (schema : Metadata) (connectionMap : ConnectionMap)
    (st : LoopState) (v : SchemaVisit) (l : List SchemaVisit) :
    visitSchemas schema connectionMap st (v :: l) =
      visitSchemas schema connectionMap (visitSchema schema connectionMap st v) l := by
  simp [visitSchemas]

theorem visitSchemas_schemasToAdd (schema : Metadata) (connectionMap : ConnectionMap)
    (l : List SchemaVisit) :
    ∀ st : LoopState,
      (visitSchemas schema connectionMap st l).schemasToAdd =
        st.schemasToAdd ++
          (l.map SchemaVisit.schemaName).filter
            (fun n => !decide (n = schema.TemporarySchemaName)) := by
  induction l with
  | nil => intro st; simp [visitSchemas]
  | cons v l ih =>
    intro st
    rw [visitSchemas_cons, ih, visitSchema_schemasToAdd]
    by_cases h : v.schemaName = schema.TemporarySchemaName <;> simp [h]

theorem visitSchemas_qualified (schema : Metadata) (connectionMap : ConnectionMap)
    (l : List SchemaVisit) :
    ∀ st : LoopState,
      (visitSchemas schema connectionMap st l).qualifiedTablesToAdd =
        st.qualifiedTablesToAdd ++ l.flatMap (qualifiedContribution schema) := by
  induction l with
  | nil => intro st; simp [visitSchemas]
  | cons v l ih =>
    intro st
    rw [visitSchemas_cons, ih, visitSchema_qualified]
    simp

/-- What the loop has appended to `unqualifiedTablesToAdd` stays in it. -/
theorem visitSchemas_unqualified_extends (schema : Metadata) (connectionMap : ConnectionMap)
    (l : List SchemaVisit) :
    ∀ st : LoopState,
      ∃ more : List String,
        (visitSchemas schema connectionMap st l).unqualifiedTablesToAdd =
          st.unqualifiedTablesToAdd ++ more := by
  induction l with
  | nil => intro st; exact ⟨[], by simp [visitSchemas]⟩
  | cons v l ih =>
    intro st
    obtain ⟨more, h⟩ := ih (visitSchema schema connectionMap st v)
    refine ⟨unqualifiedContribution schema connectionMap st.pluginSchemaMap v ++ more, ?_⟩
    rw [visitSchemas_cons, h, visitSchema_unqualified]
    simp

/-- A mark is never removed by the loop. -/
theorem visitSchemas_marked_mono (schema : Metadata) (connectionMap : ConnectionMap)
    (k : String) (l : List SchemaVisit) :
    ∀ st : LoopState, marked st.pluginSchemaMap k = true →
      marked (visitSchemas schema connectionMap st l).pluginSchemaMap k = true := by
  induction l with
  | nil => intro st h; simpa [visitSchemas] using h
  | cons v l ih =>
    intro st h
    rw [visitSchemas_cons]
    apply ih
    rw [visitSchema_marked, h]
    simp

/-- A plugin that is marked was marked at the start or is the plugin of a visited
schema that is not the temporary one, is in the search path and has a table. -/
theorem visitSchemas_marked_origin (schema : Metadata) (connectionMap : ConnectionMap)
    (k : String) (l : List SchemaVisit) :
    ∀ st : LoopState,
      marked (visitSchemas schema connectionMap st l).pluginSchemaMap k = true →
        marked st.pluginSchemaMap k = true ∨
          ∃ v ∈ l, v.schemaName ≠ schema.TemporarySchemaName ∧
            StringSliceContains schema.SearchPath v.schemaName = true ∧
            v.unqualifiedOrder ≠ [] ∧ pluginOfThisSchema connectionMap v.schemaName = k := by
  induction l with
  | nil => intro st h; left; simpa [visitSchemas] using h
  | cons v l ih =>
    intro st h
    rw [visitSchemas_cons] at h
    rcases ih _ h with h' | ⟨w, hw, hrest⟩
    · rw [visitSchema_marked] at h'
      simp only [Bool.or_eq_true, Bool.and_eq_true, Bool.not_eq_true', decide_eq_false_iff_not,
        decide_eq_true_eq] at h'
      rcases h' with h' | ⟨⟨⟨hadd, hne⟩, htab⟩, hk⟩
      · exact Or.inl h'
      · right
        refine ⟨v, List.mem_cons_self _ _, hne, ?_, ?_, hk.symm⟩
        · simp only [addsUnqualified, Bool.and_eq_true, Bool.or_eq_true, decide_eq_true_eq] at hadd
          rcases hadd.1 with h1 | h1
          · exact h1
          · exact absurd h1 hne
        · intro hnil
          simp [hnil] at htab
    · exact Or.inr ⟨w, List.mem_cons_of_mem _ hw, hrest⟩

theorem marked_init (k : String) : marked LoopState.init.pluginSchemaMap k = false := by
  simp [marked, LoopState.init, GoMap.get?]

/-- C1: the result of `GetTableAutoCompleteSuggestions` is the concatenation of three
groups, in this order: a "Schema" suggestion per collected schema name, a "Table" suggestion
per collected unqualified table name, a "Table" suggestion per collected qualified table
name. Each group holds the collected names, each as often as it was collected, and the
result holds nothing else. -/
theorem C1_result_is_three_groups (schema : Metadata) (connectionMap : ConnectionMap) :
    ∃ g₁ g₂ g₃ : List String,
      GetTableAutoCompleteSuggestions schema connectionMap =
        g₁.map (fun text => (⟨text, "Schema"⟩ : Suggest)) ++
          g₂.map (fun text => (⟨text, "Table"⟩ : Suggest)) ++
          g₃.map (fun text => (⟨text, "Table"⟩ : Suggest)) ∧
      g₁.Perm (collect schema connectionMap).schemasToAdd ∧
      g₂.Perm (collect schema connectionMap).unqualifiedTablesToAdd ∧
      g₃.Perm (collect schema connectionMap).qualifiedTablesToAdd :=
  ⟨schemaGroup schema connectionMap, unqualifiedGroup schema connectionMap,
    qualifiedGroup schema connectionMap, getTableAutoCompleteSuggestions_eq schema connectionMap,
    sortStrings_perm _, sortStrings_perm _, sortStrings_perm _⟩

/-- C2: the result of `GetTableAutoCompleteSuggestions` is three groups whose texts are
each in non-decreasing byte-wise order, and each group is a permutation of the names
collected for it. -/
theorem C2_groups_sorted_perm (schema : Metadata) (connectionMap : ConnectionMap) :
    ∃ g₁ g₂ g₃ : List String,
      GetTableAutoCompleteSuggestions schema connectionMap =
        g₁.map (fun text => (⟨text, "Schema"⟩ : Suggest)) ++
          g₂.map (fun text => (⟨text, "Table"⟩ : Suggest)) ++
          g₃.map (fun text => (⟨text, "Table"⟩ : Suggest)) ∧
      (g₁.Sorted StringLE ∧ g₁.Perm (collect schema connectionMap).schemasToAdd) ∧
      (g₂.Sorted StringLE ∧ g₂.Perm (collect schema connectionMap).unqualifiedTablesToAdd) ∧
      (g₃.Sorted StringLE ∧ g₃.Perm (collect schema connectionMap).qualifiedTablesToAdd) :=
  ⟨schemaGroup schema connectionMap, unqualifiedGroup schema connectionMap,
    qualifiedGroup schema connectionMap, getTableAutoCompleteSuggestions_eq schema connectionMap,
    ⟨sortStrings_sorted _, sortStrings_perm _⟩, ⟨sortStrings_sorted _, sortStrings_perm _⟩,
    ⟨sortStrings_sorted _, sortStrings_perm _⟩⟩

/-! ## Qualified names -/

theorem collect_qualified (schema : Metadata) (connectionMap : ConnectionMap) :
    (collect schema connectionMap).qualifiedTablesToAdd =
      (qualifiedPairs schema).map (fun p => p.1 ++ "." ++ p.2) := by
  rw [collect, visitSchemas_qualified]
  simp only [LoopState.init, List.nil_append, qualifiedPairs, List.map_flatMap]
  congr 1
  funext v
  by_cases h : v.schemaName = schema.TemporarySchemaName <;>
    simp [qualifiedContribution, h, Function.comp_def]

theorem mem_qualifiedPairs {schema : Metadata} {p : String × String} :
    p ∈ qualifiedPairs schema ↔
      ∃ v ∈ schema.Schemas, v.schemaName ≠ schema.TemporarySchemaName ∧
        p.1 = v.schemaName ∧ p.2 ∈ v.qualifiedOrder := by
  obtain ⟨a, b⟩ := p
  simp only [qualifiedPairs, List.mem_flatMap]
  constructor
  · rintro ⟨v, hv, hp⟩
    by_cases h : v.schemaName = schema.TemporarySchemaName
    · simp [h] at hp
    · simp only [h, if_false, List.mem_map, Prod.mk.injEq] at hp
      obtain ⟨t, ht, h1, h2⟩ := hp
      exact ⟨v, hv, h, h1.symm, h2 ▸ ht⟩
  · rintro ⟨v, hv, hne, h1, h2⟩
    refine ⟨v, hv, ?_⟩
    simp only [hne, if_false, List.mem_map, Prod.mk.injEq]
    exact ⟨b, h2, h1.symm, rfl⟩

theorem qualifiedPairs_nodup {schema : Metadata} (hwf : schema.WellFormed) :
    (qualifiedPairs schema).Nodup := by
  obtain ⟨hnames, htables⟩ := hwf
  rw [qualifiedPairs, List.nodup_flatMap]
  constructor
  · intro v hv
    by_cases h : v.schemaName = schema.TemporarySchemaName
    · simp [h]
    · simp only [h, if_false]
      exact (htables v hv).1.map (fun a b hab => (Prod.mk.injEq _ _ _ _ ▸ hab).2)
  · have hnames' := List.pairwise_map.1 hnames
    refine hnames'.imp ?_
    intro v w hvw
    intro p hp hq
    by_cases h : v.schemaName = schema.TemporarySchemaName
    · simp [h] at hp
    · by_cases h' : w.schemaName = schema.TemporarySchemaName
      · simp [h'] at hq
      · simp only [h, h', if_false, List.mem_map] at hp hq
        obtain ⟨t, _, rfl⟩ := hp
        obtain ⟨u, _, hu⟩ := hq
        exact hvw (Prod.mk.injEq _ _ _ _ ▸ hu).1.symm

/-- The two sides of the first `.` of a text determine each other when the left sides hold
no `.`. -/
theorem dot_split_unique :
    ∀ l₁ l₂ r₁ r₂ : List Char, '.' ∉ l₁ → '.' ∉ l₂ →
      l₁ ++ '.' :: r₁ = l₂ ++ '.' :: r₂ → l₁ = l₂ ∧ r₁ = r₂
  | [], [], _, _ => fun _ _ h => ⟨rfl, by simpa using h⟩
  | [], c :: l₂, _, _ => fun _ h₂ h => by
    simp only [List.nil_append, List.cons_append, List.cons.injEq] at h
    exact absurd (h.1 ▸ List.mem_cons_self _ _) h₂
  | c :: l₁, [], _, _ => fun h₁ _ h => by
    simp only [List.nil_append, List.cons_append, List.cons.injEq] at h
    exact absurd (h.1 ▸ List.mem_cons_self _ _) h₁
  | c :: l₁, d :: l₂, r₁, r₂ => fun h₁ h₂ h => by
    simp only [List.cons_append, List.cons.injEq] at h
    have ih := dot_split_unique l₁ l₂ r₁ r₂ (fun hm => h₁ (List.mem_cons_of_mem _ hm))
      (fun hm => h₂ (List.mem_cons_of_mem _ hm)) h.2
    exact ⟨by rw [h.1, ih.1], ih.2⟩

theorem qualified_name_injective {s s' t t' : String} (hs : '.' ∉ s.data)
    (hs' : '.' ∉ s'.data) (h : s ++ "." ++ t = s' ++ "." ++ t') : s = s' ∧ t = t' := by
  have hd := congrArg String.data h
  simp only [String.data_append] at hd
  rw [List.append_assoc, List.append_assoc] at hd
  obtain ⟨h1, h2⟩ := dot_split_unique s.data s'.data t.data t'.data hs hs' hd
  exact ⟨String.ext h1, String.ext h2⟩

theorem count_qualified_eq_one {schema : Metadata} (connectionMap : ConnectionMap)
    (hwf : schema.WellFormed) {p : String × String} (hp : p ∈ qualifiedPairs schema)
    (hinj : ∀ q ∈ qualifiedPairs schema, q.1 ++ "." ++ q.2 = p.1 ++ "." ++ p.2 → q = p) :
    (qualifiedGroup schema connectionMap).count (p.1 ++ "." ++ p.2) = 1 := by
  rw [qualifiedGroup, (sortStrings_perm _).count_eq, collect_qualified, List.count,
    List.countP_map]
  have hcongr :
      List.countP ((fun x => x == p.1 ++ "." ++ p.2) ∘ fun q : String × String =>
        q.1 ++ "." ++ q.2) (qualifiedPairs schema) =
        List.countP (fun q => decide (q = p)) (qualifiedPairs schema) := by
    apply List.countP_congr
    intro q hq
    simp only [Function.comp_apply, beq_iff_eq, decide_eq_true_eq]
    exact ⟨hinj q hq, fun h => by rw [h]⟩
  rw [hcongr]
  exact @List.count_eq_one_of_mem _ _ p _ (qualifiedPairs_nodup hwf) hp

/-- C3, as stated, fails: with the schemas `a` (table `b.c`) and `a.b` (table `c`), a
well-formed input without a temporary schema, the text `a.b.c` occurs twice in the
qualified-table group. -/
theorem C3_counterexample_colliding_names :
    dottedMetadata.WellFormed ∧
      (⟨"a", ["b.c"], ["b.c"]⟩ : SchemaVisit) ∈ dottedMetadata.Schemas ∧
      "a" ≠ dottedMetadata.TemporarySchemaName ∧
      (qualifiedGroup dottedMetadata []).count ("a" ++ "." ++ "b.c") = 2 := by
  refine ⟨⟨by decide, ?_⟩, by decide, by decide, by decide⟩
  intro v hv
  simp only [dottedMetadata, List.mem_cons, List.mem_singleton, List.not_mem_nil, or_false] at hv
  rcases hv with rfl | rfl <;> exact ⟨by decide, List.Perm.refl _⟩

/-- C3, amended: for an input whose schema names are distinct and whose table names are
distinct within each schema, every schema `s` other than the temporary one and every table
`t` of `s`: the text `s.t` occurs at least once in the qualified-table group, whatever the
search path and the connections; it occurs exactly once when no other schema and table of
the input spell the same text, and so whenever no schema name holds a `.`. -/
theorem C3_qualified_names_complete (schema : Metadata) (connectionMap : ConnectionMap)
    (hwf : schema.WellFormed) (v : SchemaVisit) (hv : v ∈ schema.Schemas)
    (hne : v.schemaName ≠ schema.TemporarySchemaName) (t : String)
    (ht : t ∈ v.qualifiedOrder) :
    1 ≤ (qualifiedGroup schema connectionMap).count (v.schemaName ++ "." ++ t) ∧
      ((∀ w ∈ schema.Schemas, w.schemaName ≠ schema.TemporarySchemaName →
          ∀ u ∈ w.qualifiedOrder,
            w.schemaName ++ "." ++ u = v.schemaName ++ "." ++ t →
              w.schemaName = v.schemaName ∧ u = t) →
        (qualifiedGroup schema connectionMap).count (v.schemaName ++ "." ++ t) = 1) ∧
      ((∀ w ∈ schema.Schemas, '.' ∉ w.schemaName.data) →
        (qualifiedGroup schema connectionMap).count (v.schemaName ++ "." ++ t) = 1) := by
  have hp : (v.schemaName, t) ∈ qualifiedPairs schema :=
    mem_qualifiedPairs.2 ⟨v, hv, hne, rfl, ht⟩
  have hexact :
      (∀ w ∈ schema.Schemas, w.schemaName ≠ schema.TemporarySchemaName →
          ∀ u ∈ w.qualifiedOrder,
            w.schemaName ++ "." ++ u = v.schemaName ++ "." ++ t →
              w.schemaName = v.schemaName ∧ u = t) →
        (qualifiedGroup schema connectionMap).count (v.schemaName ++ "." ++ t) = 1 := by
    intro hinj
    refine count_qualified_eq_one connectionMap hwf hp ?_
    rintro ⟨a, b⟩ hq heq
    obtain ⟨w, hw, hwne, h1, h2⟩ := mem_qualifiedPairs.1 hq
    simp only at h1 h2 heq
    subst h1
    obtain ⟨e1, e2⟩ := hinj w hw hwne b h2 heq
    rw [e1, e2]
  refine ⟨?_, hexact, ?_⟩
  · rw [List.one_le_count_iff, qualifiedGroup, (sortStrings_perm _).mem_iff, collect_qualified,
      List.mem_map]
    exact ⟨(v.schemaName, t), hp, rfl⟩
  · intro hdots
    apply hexact
    intro w hw _ u _ heq
    exact qualified_name_injective (hdots w hw) (hdots v hv) heq

/-- C3, amended, at the example of the specification: `aws.s3` occurs once. -/
theorem C3_qualified_names_complete_witness :
    1 ≤ (qualifiedGroup exampleMetadata exampleConnections).count ("aws" ++ "." ++ "s3") ∧
      (qualifiedGroup exampleMetadata exampleConnections).count ("aws" ++ "." ++ "s3") = 1 := by
  have hwf : exampleMetadata.WellFormed := by
    refine ⟨by decide, ?_⟩
    intro v hv
    simp only [exampleMetadata, List.mem_cons, List.mem_singleton, List.not_mem_nil,
      or_false] at hv
    rcases hv with rfl | rfl | rfl <;> exact ⟨by decide, List.Perm.refl _⟩
  have h := C3_qualified_names_complete exampleMetadata exampleConnections hwf
    ⟨"aws", ["ec2", "s3"], ["ec2", "s3"]⟩ (by decide) (by decide) "s3" (by decide)
  refine ⟨h.1, h.2.2 ?_⟩
  intro w hw
  simp only [exampleMetadata, List.mem_cons, List.mem_singleton, List.not_mem_nil,
    or_false] at hw
  rcases hw with rfl | rfl | rfl <;> decide

/-! ## Unqualified names -/

theorem mem_qualifiedGroup {schema : Metadata} (connectionMap : ConnectionMap)
    {v : SchemaVisit} (hv : v ∈ schema.Schemas)
    (hne : v.schemaName ≠ schema.TemporarySchemaName) {t : String}
    (ht : t ∈ v.qualifiedOrder) :
    v.schemaName ++ "." ++ t ∈ qualifiedGroup schema connectionMap := by
  rw [qualifiedGroup, (sortStrings_perm _).mem_iff, collect_qualified, List.mem_map]
  exact ⟨(v.schemaName, t), mem_qualifiedPairs.2 ⟨v, hv, hne, rfl, ht⟩, rfl⟩

/-- The names appended by the visit that follows the visits `pre` are in the final
unqualified-table group. -/
theorem mem_unqualifiedGroup_of_visit {schema : Metadata} (connectionMap : ConnectionMap)
    {pre post : List SchemaVisit} {v : SchemaVisit}
    (horder : schema.Schemas = pre ++ v :: post) {t : String}
    (ht : t ∈ unqualifiedContribution schema connectionMap
      (visitSchemas schema connectionMap LoopState.init pre).pluginSchemaMap v) :
    t ∈ unqualifiedGroup schema connectionMap := by
  rw [unqualifiedGroup, (sortStrings_perm _).mem_iff, collect, horder, visitSchemas_append,
    visitSchemas_cons]
  obtain ⟨more, h⟩ := visitSchemas_unqualified_extends schema connectionMap post
    (visitSchema schema connectionMap (visitSchemas schema connectionMap LoopState.init pre) v)
  rw [h, visitSchema_unqualified]
  exact List.mem_append_left _ (List.mem_append_right _ ht)

theorem visitSchemas_snoc (schema : Metadata) (connectionMap : ConnectionMap)
    (st : LoopState) (l : List SchemaVisit) (v : SchemaVisit) :
    visitSchemas schema connectionMap st (l ++ [v]) =
      visitSchema schema connectionMap (visitSchemas schema connectionMap st l) v := by
  simp [visitSchemas]

theorem pluginOfThisSchema_of_get? {connectionMap : ConnectionMap} {schemaName : String}
    {c : Connection} (h : connectionMap.get? schemaName = some c) :
    pluginOfThisSchema connectionMap schemaName = stripVersionFromPluginName c.Plugin := by
  simp [pluginOfThisSchema, h]

/-- C4, as stated, fails: `a` and `b` are in the search path, neither is the temporary
schema, their connections have the same stripped plugin name `p`, `a` is visited first; but
`a` has no table, so it marks nothing, and the visit of `b` appends the table `t` of `b` to
the unqualified names. -/
theorem C4_counterexample_first_schema_without_tables :
    emptyFirstMetadata.Schemas = [] ++ ⟨"a", [], []⟩ :: ([] ++ ⟨"b", ["t"], ["t"]⟩ :: []) ∧
      "a" ≠ emptyFirstMetadata.TemporarySchemaName ∧
      "b" ≠ emptyFirstMetadata.TemporarySchemaName ∧
      StringSliceContains emptyFirstMetadata.SearchPath "a" = true ∧
      StringSliceContains emptyFirstMetadata.SearchPath "b" = true ∧
      emptyFirstConnections.get? "a" = some ⟨"p@1"⟩ ∧
      emptyFirstConnections.get? "b" = some ⟨"p@2"⟩ ∧
      stripVersionFromPluginName "p@1" = stripVersionFromPluginName "p@2" ∧
      (visitSchemas emptyFirstMetadata emptyFirstConnections LoopState.init
          ([] ++ ⟨"a", [], []⟩ :: ([] ++ [⟨"b", ["t"], ["t"]⟩]))).unqualifiedTablesToAdd =
        (visitSchemas emptyFirstMetadata emptyFirstConnections LoopState.init
          ([] ++ ⟨"a", [], []⟩ :: [])).unqualifiedTablesToAdd ++ ["t"] ∧
      unqualifiedGroup emptyFirstMetadata emptyFirstConnections = ["t"] := by
  decide

/-- C4, amended: let the non-temporary schemas `A` and `B` both be in the search path and
both have a connection, with equal version-stripped plugin names, `A` visited before `B`,
no schema visited before `A` having that plugin identity (the plugin identity of a schema
without a connection being the empty string), and let `A` have at least one table. Then the
visit of `A` appends all the tables of `A` to the unqualified names, the visit of `B` appends
nothing to them, the tables of `A` are in the unqualified-table group, and every `A.t` and
`B.t` is in the qualified-table group. -/
theorem C4_plugin_dedup (schema : Metadata) (connectionMap : ConnectionMap)
    (pre mid post : List SchemaVisit) (A B : SchemaVisit) (cA cB : Connection)
    (horder : schema.Schemas = pre ++ A :: (mid ++ B :: post))
    (hA : A.schemaName ≠ schema.TemporarySchemaName)
    (hB : B.schemaName ≠ schema.TemporarySchemaName)
    (hAsp : StringSliceContains schema.SearchPath A.schemaName = true)
    (_hBsp : StringSliceContains schema.SearchPath B.schemaName = true)
    (hAc : connectionMap.get? A.schemaName = some cA)
    (hBc : connectionMap.get? B.schemaName = some cB)
    (hsame : stripVersionFromPluginName cA.Plugin = stripVersionFromPluginName cB.Plugin)
    (hfirst : ∀ v ∈ pre,
      pluginOfThisSchema connectionMap v.schemaName ≠ stripVersionFromPluginName cA.Plugin)
    (htables : A.unqualifiedOrder ≠ []) :
    (visitSchemas schema connectionMap LoopState.init (pre ++ [A])).unqualifiedTablesToAdd =
        (visitSchemas schema connectionMap LoopState.init pre).unqualifiedTablesToAdd ++
          A.unqualifiedOrder ∧
      (visitSchemas schema connectionMap LoopState.init
          (pre ++ A :: (mid ++ [B]))).unqualifiedTablesToAdd =
        (visitSchemas schema connectionMap LoopState.init
          (pre ++ A :: mid)).unqualifiedTablesToAdd ∧
      (∀ t ∈ A.unqualifiedOrder, t ∈ unqualifiedGroup schema connectionMap) ∧
      (∀ t ∈ A.qualifiedOrder,
        A.schemaName ++ "." ++ t ∈ qualifiedGroup schema connectionMap) ∧
      (∀ t ∈ B.qualifiedOrder,
        B.schemaName ++ "." ++ t ∈ qualifiedGroup schema connectionMap) := by
  have hpA := pluginOfThisSchema_of_get? hAc
  have hpB := pluginOfThisSchema_of_get? hBc
  -- the plugin is not marked when `A` is visited
  have hnot : marked (visitSchemas schema connectionMap LoopState.init pre).pluginSchemaMap
      (stripVersionFromPluginName cA.Plugin) = false := by
    by_contra hm
    rw [Bool.not_eq_false] at hm
    rcases visitSchemas_marked_origin schema connectionMap _ pre _ hm with h | ⟨v, hv, _, _, _, hp⟩
    · rw [marked_init] at h; exact Bool.noConfusion h
    · exact hfirst v hv hp
  have haddA : addsUnqualified schema connectionMap
      (visitSchemas schema connectionMap LoopState.init pre).pluginSchemaMap A.schemaName
        = true := by
    simp [addsUnqualified, schemaOfSamePluginIncluded, hAsp, hpA, hnot]
  -- the visit of `A` marks it, and the mark stays
  have hmarkA : marked (visitSchemas schema connectionMap LoopState.init
      (pre ++ [A])).pluginSchemaMap (stripVersionFromPluginName cA.Plugin) = true := by
    rw [visitSchemas_snoc, visitSchema_marked, haddA]
    cases hts : A.unqualifiedOrder with
    | nil => exact absurd hts htables
    | cons t ts => simp [hA, hpA]
  have hmarkB : marked (visitSchemas schema connectionMap LoopState.init
      (pre ++ A :: mid)).pluginSchemaMap (stripVersionFromPluginName cA.Plugin) = true := by
    have h : pre ++ A :: mid = (pre ++ [A]) ++ mid := by simp
    rw [h, visitSchemas_append]
    exact visitSchemas_marked_mono schema connectionMap _ mid _ hmarkA
  have haddB : addsUnqualified schema connectionMap
      (visitSchemas schema connectionMap LoopState.init (pre ++ A :: mid)).pluginSchemaMap
        B.schemaName = false := by
    simp [addsUnqualified, schemaOfSamePluginIncluded, hasConnectionForSchema, hBc, hpB,
      ← hsame, hmarkB]
  have hmemB : B ∈ schema.Schemas := by rw [horder]; simp
  have hmemA : A ∈ schema.Schemas := by rw [horder]; simp
  refine ⟨?_, ?_, ?_, ?_, ?_⟩
  · rw [visitSchemas_snoc, visitSchema_unqualified, unqualifiedContribution, if_pos haddA]
  · have h : pre ++ A :: (mid ++ [B]) = (pre ++ A :: mid) ++ [B] := by simp
    rw [h, visitSchemas_snoc, visitSchema_unqualified, unqualifiedContribution, haddB]
    simp
  · intro t ht
    apply mem_unqualifiedGroup_of_visit connectionMap horder
    rw [unqualifiedContribution, if_pos haddA]
    exact ht
  · intro t ht
    exact mem_qualifiedGroup connectionMap hmemA hA ht
  · intro t ht
    exact mem_qualifiedGroup connectionMap hmemB hB ht

/-- C4, amended, at two schemas `a` and `b` of the search path that use the plugin `p`:
the table of `a` is added unqualified, the visit of `b` adds nothing, `b.y` is qualified. -/
theorem C4_plugin_dedup_witness :
    (visitSchemas sharedPluginMetadata sharedPluginConnections LoopState.init
        ([] ++ [⟨"a", ["x"], ["x"]⟩])).unqualifiedTablesToAdd =
      (visitSchemas sharedPluginMetadata sharedPluginConnections LoopState.init
        []).unqualifiedTablesToAdd ++ ["x"] ∧
    (visitSchemas sharedPluginMetadata sharedPluginConnections LoopState.init
        ([] ++ ⟨"a", ["x"], ["x"]⟩ :: ([] ++ [⟨"b", ["y"], ["y"]⟩]))).unqualifiedTablesToAdd =
      (visitSchemas sharedPluginMetadata sharedPluginConnections LoopState.init
        ([] ++ ⟨"a", ["x"], ["x"]⟩ :: [])).unqualifiedTablesToAdd ∧
    (∀ t ∈ ["y"], "b" ++ "." ++ t ∈ qualifiedGroup sharedPluginMetadata sharedPluginConnections) := by
  have h := C4_plugin_dedup sharedPluginMetadata sharedPluginConnections [] [] []
    ⟨"a", ["x"], ["x"]⟩ ⟨"b", ["y"], ["y"]⟩ ⟨"p@1"⟩ ⟨"p@2"⟩ rfl (by decide) (by decide)
    (by decide) (by decide) (by decide) (by decide) (by decide)
    (fun v hv => absurd hv (List.not_mem_nil v)) (by decide)
  exact ⟨h.1, h.2.1, h.2.2.2.2⟩

/-- C5, as stated, fails: the temporary schema `pg_temp` has an entry in the connection
map, with the plugin `p` that the schema `aws`, visited before it, has marked; the visit of
`pg_temp` appends nothing and its table `scratch` is not in the unqualified-table group. -/
theorem C5_counterexample_temporary_schema_suppressed :
    tempWithConnectionMetadata.Schemas =
        [⟨"aws", ["ec2"], ["ec2"]⟩] ++ [⟨"pg_temp", ["scratch"], ["scratch"]⟩] ∧
      tempWithConnectionMetadata.TemporarySchemaName = "pg_temp" ∧
      (visitSchemas tempWithConnectionMetadata tempWithConnectionConnections LoopState.init
          ([⟨"aws", ["ec2"], ["ec2"]⟩] ++
            [⟨"pg_temp", ["scratch"], ["scratch"]⟩])).unqualifiedTablesToAdd =
        (visitSchemas tempWithConnectionMetadata tempWithConnectionConnections LoopState.init
          [⟨"aws", ["ec2"], ["ec2"]⟩]).unqualifiedTablesToAdd ∧
      "scratch" ∉ unqualifiedGroup tempWithConnectionMetadata tempWithConnectionConnections ∧
      (⟨"scratch", "Table"⟩ : Suggest) ∉
        GetTableAutoCompleteSuggestions tempWithConnectionMetadata
          tempWithConnectionConnections := by
  decide

theorem schemaGroup_ne_temporary (schema : Metadata) (connectionMap : ConnectionMap)
    {n : String} (h : n ∈ schemaGroup schema connectionMap) :
    n ≠ schema.TemporarySchemaName := by
  rw [schemaGroup, (sortStrings_perm _).mem_iff, collect, visitSchemas_schemasToAdd] at h
  simp only [LoopState.init, List.nil_append, List.mem_filter, Bool.not_eq_true',
    decide_eq_false_iff_not] at h
  exact h.2

/-- C5, amended: for every input, no "Schema" suggestion of the result has the name of the
temporary schema as its text. And when the temporary schema, visited after the schemas
`pre`, has no entry in the connection map, or an entry whose version-stripped plugin name
no schema of `pre` has marked, its visit appends all its tables to the unqualified names,
whether or not it is in the search path, and each of them is a "Table" suggestion of the
result. -/
theorem C5_temporary_schema_exempt (schema : Metadata) (connectionMap : ConnectionMap)
    (pre post : List SchemaVisit) (T : SchemaVisit) :
    (∀ s ∈ GetTableAutoCompleteSuggestions schema connectionMap,
      s.Description = "Schema" → s.Text ≠ schema.TemporarySchemaName) ∧
    (schema.Schemas = pre ++ T :: post →
      T.schemaName = schema.TemporarySchemaName →
      (connectionMap.get? T.schemaName = none ∨
        marked (visitSchemas schema connectionMap LoopState.init pre).pluginSchemaMap
          (pluginOfThisSchema connectionMap T.schemaName) = false) →
      (visitSchemas schema connectionMap LoopState.init (pre ++ [T])).unqualifiedTablesToAdd =
          (visitSchemas schema connectionMap LoopState.init pre).unqualifiedTablesToAdd ++
            T.unqualifiedOrder ∧
        (∀ t ∈ T.unqualifiedOrder,
          (⟨t, "Table"⟩ : Suggest) ∈
            GetTableAutoCompleteSuggestions schema connectionMap)) := by
  refine ⟨?_, ?_⟩
  · intro s hs hdesc
    rw [getTableAutoCompleteSuggestions_eq, List.mem_append, List.mem_append] at hs
    rcases hs with (hs | hs) | hs
    · obtain ⟨n, hn, rfl⟩ := List.mem_map.1 hs
      exact schemaGroup_ne_temporary schema connectionMap hn
    · obtain ⟨n, _, rfl⟩ := List.mem_map.1 hs
      exact absurd hdesc (show "Table" ≠ "Schema" by decide)
    · obtain ⟨n, _, rfl⟩ := List.mem_map.1 hs
      exact absurd hdesc (show "Table" ≠ "Schema" by decide)
  · intro horder hT hfree
    have hadd : addsUnqualified schema connectionMap
        (visitSchemas schema connectionMap LoopState.init pre).pluginSchemaMap T.schemaName
          = true := by
      rcases hfree with h | h
      · simp [addsUnqualified, schemaOfSamePluginIncluded, hasConnectionForSchema, h, ← hT]
      · simp [addsUnqualified, schemaOfSamePluginIncluded, h, ← hT]
    refine ⟨?_, ?_⟩
    · rw [visitSchemas_snoc, visitSchema_unqualified, unqualifiedContribution, if_pos hadd]
    · intro t ht
      have hmem : t ∈ unqualifiedGroup schema connectionMap := by
        apply mem_unqualifiedGroup_of_visit connectionMap horder
        rw [unqualifiedContribution, if_pos hadd]
        exact ht
      rw [getTableAutoCompleteSuggestions_eq]
      exact List.mem_append_left _ (List.mem_append_right _ (List.mem_map.2 ⟨t, hmem, rfl⟩))

/-- C5, amended. At the example of the specification in the order `pg_temp`, `gcp`, `aws`,
the table `scratch` of the temporary schema, which is not in the search path, is suggested.
At the input where the temporary schema has a connection with a marked plugin, and so adds
nothing, its name is still no "Schema" suggestion. -/
theorem C5_temporary_schema_exempt_witness :
    (⟨"scratch", "Table"⟩ : Suggest) ∈
        GetTableAutoCompleteSuggestions exampleMetadataReordered exampleConnections ∧
      (∀ s ∈ GetTableAutoCompleteSuggestions exampleMetadataReordered exampleConnections,
        s.Description = "Schema" → s.Text ≠ "pg_temp") ∧
      (∀ s ∈ GetTableAutoCompleteSuggestions tempWithConnectionMetadata
          tempWithConnectionConnections,
        s.Description = "Schema" → s.Text ≠ "pg_temp") := by
  have h := C5_temporary_schema_exempt exampleMetadataReordered exampleConnections []
    [⟨"gcp", ["buckets"], ["buckets"]⟩, ⟨"aws", ["s3", "ec2"], ["ec2", "s3"]⟩]
    ⟨"pg_temp", ["scratch"], ["scratch"]⟩
  have h' := C5_temporary_schema_exempt tempWithConnectionMetadata
    tempWithConnectionConnections [⟨"aws", ["ec2"], ["ec2"]⟩] []
    ⟨"pg_temp", ["scratch"], ["scratch"]⟩
  exact ⟨(h.2 rfl rfl (Or.inl (by decide))).2 "scratch" (by decide), h.1, h'.1⟩

/-- C6: the result depends on the order in which the schemas map is traversed. The schemas
`a` (table `x`) and `b` (table `y`) are both in the search path and use the same plugin:
when `a` is met first the unqualified names are `x`, when `b` is met first they are `y`. -/
theorem C6_result_depends_on_traversal_order :
    sharedPluginMetadata.WellFormed ∧ sharedPluginMetadataSwapped.WellFormed ∧
      sharedPluginMetadataSwapped.SameInput sharedPluginMetadata ∧
      GetTableAutoCompleteSuggestions sharedPluginMetadata sharedPluginConnections =
        [⟨"a", "Schema"⟩, ⟨"b", "Schema"⟩, ⟨"x", "Table"⟩, ⟨"a.x", "Table"⟩,
          ⟨"b.y", "Table"⟩] ∧
      GetTableAutoCompleteSuggestions sharedPluginMetadataSwapped sharedPluginConnections =
        [⟨"a", "Schema"⟩, ⟨"b", "Schema"⟩, ⟨"y", "Table"⟩, ⟨"a.x", "Table"⟩,
          ⟨"b.y", "Table"⟩] ∧
      GetTableAutoCompleteSuggestions sharedPluginMetadata sharedPluginConnections ≠
        GetTableAutoCompleteSuggestions sharedPluginMetadataSwapped
          sharedPluginConnections := by
  have hwf₁ : sharedPluginMetadata.WellFormed := by
    refine ⟨by decide, ?_⟩
    intro v hv
    simp only [sharedPluginMetadata, List.mem_cons, List.mem_singleton, List.not_mem_nil,
      or_false] at hv
    rcases hv with rfl | rfl <;> exact ⟨by decide, List.Perm.refl _⟩
  have hwf₂ : sharedPluginMetadataSwapped.WellFormed := by
    refine ⟨by decide, ?_⟩
    intro v hv
    simp only [sharedPluginMetadataSwapped, List.mem_cons, List.mem_singleton,
      List.not_mem_nil, or_false] at hv
    rcases hv with rfl | rfl <;> exact ⟨by decide, List.Perm.refl _⟩
  refine ⟨hwf₁, hwf₂, ⟨rfl, rfl, sharedPluginMetadata.Schemas, ?_, ?_⟩, by decide, by decide,
    by decide⟩
  · exact List.Perm.swap _ _ _
  · exact List.Forall₂.cons ⟨rfl, List.Perm.refl _, List.Perm.refl _⟩
      (List.Forall₂.cons ⟨rfl, List.Perm.refl _, List.Perm.refl _⟩ List.Forall₂.nil)

/-! ## The example of the specification -/

/-- Two sorted lists with the same members are equal when the order is antisymmetric on
the members. -/
theorem eq_of_perm_of_sorted_on {r : String → String → Prop} :
    ∀ {l₁ l₂ : List String}, l₁.Perm l₂ → l₁.Sorted r → l₂.Sorted r →
      (∀ a ∈ l₁, ∀ b ∈ l₁, r a b → r b a → a = b) → l₁ = l₂
  | [], l₂, hp, _, _, _ => (List.Perm.nil_eq hp)
  | a :: l₁, [], hp, _, _, _ => absurd hp.symm (List.not_perm_nil_cons _ _)
  | a :: l₁, b :: l₂, hp, h₁, h₂, hanti => by
    have hab : a = b := by
      have ha : a ∈ b :: l₂ := hp.subset (List.mem_cons_self _ _)
      have hb : b ∈ a :: l₁ := hp.symm.subset (List.mem_cons_self _ _)
      rcases List.mem_cons.1 ha with h | h
      · exact h
      · rcases List.mem_cons.1 hb with h' | h'
        · exact h'.symm
        · exact hanti a (List.mem_cons_self _ _) b (List.mem_cons_of_mem _ h')
            (List.rel_of_sorted_cons h₁ b h') (List.rel_of_sorted_cons h₂ a h)
    subst hab
    have ih := eq_of_perm_of_sorted_on (List.Perm.cons_inv hp) h₁.of_cons h₂.of_cons
      (fun x hx y hy => hanti x (List.mem_cons_of_mem _ hx) y (List.mem_cons_of_mem _ hy))
    rw [ih]

theorem sortStrings_eq_of_perm {l c : List String} (hp : l.Perm c)
    (hanti : ∀ a ∈ c, ∀ b ∈ c, StringLE a b → StringLE b a → a = b) :
    sortStrings l = sortStrings c := by
  apply eq_of_perm_of_sorted_on
    ((sortStrings_perm l).trans (hp.trans (sortStrings_perm c).symm))
    (sortStrings_sorted l) (sortStrings_sorted c)
  intro a ha b hb
  exact hanti a (hp.subset ((sortStrings_perm l).subset ha)) b
    (hp.subset ((sortStrings_perm l).subset hb))

/-- When the guard of the unqualified names has, at every visit of the run, the value
`E v` that does not depend on the plugins marked, the unqualified names are the tables of
the schemas that satisfy `E`. -/
theorem visitSchemas_unqualified_of_static (schema : Metadata)
    (connectionMap : ConnectionMap) (E : SchemaVisit → Bool) (st : LoopState) :
    ∀ l : List SchemaVisit,
      (∀ pre v post, l = pre ++ v :: post →
        addsUnqualified schema connectionMap
          (visitSchemas schema connectionMap st pre).pluginSchemaMap v.schemaName = E v) →
      (visitSchemas schema connectionMap st l).unqualifiedTablesToAdd =
        st.unqualifiedTablesToAdd ++
          (l.filter E).flatMap SchemaVisit.unqualifiedOrder := by
  intro l
  induction l using List.reverseRecOn with
  | nil => intro _; simp [visitSchemas]
  | append_singleton l v ih =>
    intro h
    have ih' := ih (fun pre w post hl => h pre w (post ++ [v]) (by rw [hl]; simp))
    have hv := h l v [] rfl
    rw [visitSchemas_snoc, visitSchema_unqualified, ih', unqualifiedContribution, hv]
    cases hE : E v <;> simp [List.filter_append, hE]

/-- C7: on the example of the specification (schemas `aws` with `ec2` and `s3`, `gcp`
with `buckets`, the temporary schema `pg_temp` with `scratch`; search path `aws`;
connections `aws` to `pluginA` and `gcp` to `pluginB`), in every order of traversal of the
schemas and of their tables, the result is the texts `aws`, `gcp` as "Schema", then `ec2`,
`s3`, `scratch` as "Table", then `aws.ec2`, `aws.s3`, `gcp.buckets` as "Table". -/
theorem C7_example_result (md : Metadata) (h : md.SameInput exampleMetadata) :
    GetTableAutoCompleteSuggestions md exampleConnections = exampleExpected := by
  obtain ⟨schemas, sp, tmp⟩ := md
  obtain ⟨hsp, htmp, l, hperm, hf⟩ := h
  simp only [exampleMetadata] at hsp htmp hf
  subst hsp htmp
  rcases hf with _ | ⟨h1, _ | ⟨h2, _ | ⟨h3, _ | _⟩⟩⟩
  rename_i v1 v2 v3
  obtain ⟨n1, q1, u1⟩ := v1
  obtain ⟨n2, q2, u2⟩ := v2
  obtain ⟨n3, q3, u3⟩ := v3
  obtain ⟨hn1, hq1, hu1⟩ := h1
  obtain ⟨hn2, hq2, hu2⟩ := h2
  obtain ⟨hn3, hq3, hu3⟩ := h3
  simp only at hn1 hn2 hn3 hq1 hq2 hq3 hu1 hu2 hu3
  subst hn1 hn2 hn3
  -- the names of the schemas are distinct, in every order
  have hperm' : [(⟨"aws", q1, u1⟩ : SchemaVisit), ⟨"gcp", q2, u2⟩, ⟨"pg_temp", q3, u3⟩].Perm
      schemas := hperm
  have hdistinct : ["aws", "gcp", "pg_temp"].Nodup := by decide
  have hnames : (schemas.map SchemaVisit.schemaName).Nodup :=
    (hperm'.map SchemaVisit.schemaName).nodup_iff.1 hdistinct
  have hname : ∀ v ∈ schemas,
      v.schemaName = "aws" ∨ v.schemaName = "gcp" ∨ v.schemaName = "pg_temp" := by
    intro v hv
    have hv' := hperm'.symm.subset hv
    simp only [List.mem_cons, List.mem_singleton, List.not_mem_nil, or_false] at hv'
    rcases hv' with rfl | rfl | rfl <;> simp
  -- the schema names
  have hs : (collect ⟨schemas, ["aws"], "pg_temp"⟩ exampleConnections).schemasToAdd.Perm
      ["aws", "gcp"] := by
    rw [collect, visitSchemas_schemasToAdd]
    simp only [LoopState.init, List.nil_append]
    have hfilter :
        List.filter (fun n => !decide (n = "pg_temp")) ["aws", "gcp", "pg_temp"] =
          ["aws", "gcp"] := by decide
    exact ((hperm'.map SchemaVisit.schemaName).filter _).symm.trans (List.Perm.of_eq hfilter)
  -- the qualified names
  have hq : (collect ⟨schemas, ["aws"], "pg_temp"⟩ exampleConnections).qualifiedTablesToAdd.Perm
      ["aws.ec2", "aws.s3", "gcp.buckets"] := by
    rw [collect, visitSchemas_qualified]
    simp only [LoopState.init, List.nil_append]
    refine (hperm'.flatMap_right _).symm.trans ?_
    have e1 : ("aws" = "pg_temp") = False := by decide
    have e2 : ("gcp" = "pg_temp") = False := by decide
    simp only [List.flatMap_cons, List.flatMap_nil, qualifiedContribution, e1, e2, if_false,
      if_true, List.append_nil]
    exact (hq1.map _).append (hq2.map _)
  -- the unqualified names
  have hu : (collect ⟨schemas, ["aws"], "pg_temp"⟩
      exampleConnections).unqualifiedTablesToAdd.Perm ["ec2", "s3", "scratch"] := by
    rw [collect,
      visitSchemas_unqualified_of_static _ _
        (fun v => decide (v.schemaName = "aws") || decide (v.schemaName = "pg_temp"))]
    · simp only [LoopState.init, List.nil_append]
      refine ((hperm'.filter _).flatMap_right _).symm.trans ?_
      have e1 : (decide ("gcp" = "aws") || decide ("gcp" = "pg_temp")) = false := by decide
      simp only [List.filter, decide_True, Bool.true_or, Bool.or_true, e1, List.flatMap_cons,
        List.flatMap_nil, List.append_nil]
      exact hu1.append hu3
    · intro pre v post hl
      have hl' : schemas = pre ++ v :: post := hl
      have hv : v ∈ schemas := by rw [hl']; simp
      rcases hname v hv with hn | hn | hn
      · -- `aws` is in the search path and its plugin is not marked yet
        have hnot : marked (visitSchemas ⟨schemas, ["aws"], "pg_temp"⟩ exampleConnections
            LoopState.init pre).pluginSchemaMap "pluginA" = false := by
          by_contra hm
          rw [Bool.not_eq_false] at hm
          rcases visitSchemas_marked_origin _ _ _ pre _ hm with h | ⟨w, hw, _, hwsp, _, _⟩
          · rw [marked_init] at h; exact Bool.noConfusion h
          · have hwn : w.schemaName = "aws" := by
              simpa [StringSliceContains, eq_comm] using hwsp
            rw [hl', List.map_append, List.map_cons] at hnames
            have hdis := (List.nodup_append.1 hnames).2.2
            exact hdis (List.mem_map.2 ⟨w, hw, hwn⟩) (by rw [hn]; exact List.mem_cons_self _ _)
        have hp : pluginOfThisSchema exampleConnections "aws" = "pluginA" := by decide
        simp [addsUnqualified, schemaOfSamePluginIncluded, hn, hp, hnot, StringSliceContains]
      · simp [addsUnqualified, hn, StringSliceContains]
      · have hc : hasConnectionForSchema exampleConnections "pg_temp" = false := by decide
        simp [addsUnqualified, schemaOfSamePluginIncluded, hn, hc]
  rw [getTableAutoCompleteSuggestions_eq, schemaGroup, unqualifiedGroup, qualifiedGroup,
    sortStrings_eq_of_perm hs (by decide), sortStrings_eq_of_perm hu (by decide),
    sortStrings_eq_of_perm hq (by decide)]
  decide

/-- C7 at the order `pg_temp`, `gcp`, `aws`, with the tables of `aws` met as `s3`, `ec2`
by the first inner loop. -/
theorem C7_example_result_witness :
    exampleMetadataReordered.SameInput exampleMetadata ∧
      GetTableAutoCompleteSuggestions exampleMetadataReordered exampleConnections =
        exampleExpected := by
  have hsame : exampleMetadataReordered.SameInput exampleMetadata := by
    refine ⟨rfl, rfl,
      [⟨"aws", ["s3", "ec2"], ["ec2", "s3"]⟩, ⟨"gcp", ["buckets"], ["buckets"]⟩,
        ⟨"pg_temp", ["scratch"], ["scratch"]⟩], ?_, ?_⟩
    · exact List.Perm.of_eq (by decide : _ = List.reverse exampleMetadataReordered.Schemas)
        |>.trans (List.reverse_perm _)
    · exact List.Forall₂.cons ⟨rfl, List.Perm.swap _ _ _, List.Perm.refl _⟩
        (List.Forall₂.cons ⟨rfl, List.Perm.refl _, List.Perm.refl _⟩
          (List.Forall₂.cons ⟨rfl, List.Perm.refl _, List.Perm.refl _⟩ List.Forall₂.nil))
  exact ⟨hsame, C7_example_result exampleMetadataReordered hsame⟩

/-! ## Validation of the connection plugins -/

theorem validateColumnDefVersion_isSome (steampipeProtocolVersion : Int)
    (p : ConnectionPlugin) :
    (validateColumnDefVersion steampipeProtocolVersion p).isSome = true ↔
      p.ProtocolVersion ≠ 0 ∧ steampipeProtocolVersion < p.ProtocolVersion := by
  unfold validateColumnDefVersion
  by_cases h0 : p.ProtocolVersion = 0
  · simp only [if_pos h0, Option.isSome_none]
    exact ⟨fun h => Bool.noConfusion h, fun h => absurd h0 h.1⟩
  · by_cases hlt : steampipeProtocolVersion < p.ProtocolVersion
    · simp only [if_neg h0, if_pos hlt, Option.isSome_some]
      exact ⟨fun _ => ⟨h0, hlt⟩, fun _ => trivial⟩
    · simp only [if_neg h0, if_neg hlt, Option.isSome_none]
      exact ⟨fun h => Bool.noConfusion h, fun h => absurd h.2 hlt⟩

theorem validateConnectionName_isSome (ReservedConnectionNames : List String)
    (p : ConnectionPlugin) :
    (validateConnectionName ReservedConnectionNames p).isSome =
      StringSliceContains ReservedConnectionNames p.ConnectionName := by
  unfold validateConnectionName
  by_cases h : StringSliceContains ReservedConnectionNames p.ConnectionName = true
  · rw [if_pos h, h]; rfl
  · rw [if_neg h, Bool.eq_false_iff.2 h]; rfl

theorem stringSliceContains_iff (slice : List String) (s : String) :
    StringSliceContains slice s = true ↔ s ∈ slice := by
  simp only [StringSliceContains, List.any_eq_true, decide_eq_true_eq]
  exact ⟨fun ⟨x, hx, hxs⟩ => hxs ▸ hx, fun h => ⟨s, h, rfl⟩⟩

/-- One turn of the loop of `ValidatePlugins`: the plugin goes to the failures with the
failure `failureOf` finds, or to the validated plugins when it finds none. -/
theorem validatePlugin_lists (steampipeProtocolVersion : Int)
    (ReservedConnectionNames : List String) (updates : ConnectionMap) (st : ValidationState)
    (p : ConnectionPlugin) :
    (validatePlugin steampipeProtocolVersion ReservedConnectionNames updates st
        p).validationFailures =
      st.validationFailures ++
        (failureOf steampipeProtocolVersion ReservedConnectionNames p).toList ∧
    (validatePlugin steampipeProtocolVersion ReservedConnectionNames updates st
        p).validatedPlugins =
      st.validatedPlugins ++
        (if passesProtocolCheck steampipeProtocolVersion p &&
            passesNameCheck ReservedConnectionNames p then [p] else []) := by
  unfold validatePlugin failureOf passesProtocolCheck passesNameCheck
  cases h1 : validateColumnDefVersion steampipeProtocolVersion p with
  | some f => simp
  | none =>
    cases h2 : validateConnectionName ReservedConnectionNames p with
    | some f => simp
    | none => simp

theorem foldl_validatePlugin_lists (steampipeProtocolVersion : Int)
    (ReservedConnectionNames : List String) (updates : ConnectionMap)
    (plugins : List ConnectionPlugin) :
    ∀ st : ValidationState,
      (plugins.foldl
          (validatePlugin steampipeProtocolVersion ReservedConnectionNames updates)
          st).validationFailures =
        st.validationFailures ++
          plugins.filterMap (failureOf steampipeProtocolVersion ReservedConnectionNames) ∧
      (plugins.foldl
          (validatePlugin steampipeProtocolVersion ReservedConnectionNames updates)
          st).validatedPlugins =
        st.validatedPlugins ++
          plugins.filter (fun p => passesProtocolCheck steampipeProtocolVersion p &&
            passesNameCheck ReservedConnectionNames p) := by
  induction plugins with
  | nil => intro st; simp
  | cons p ps ih =>
    intro st
    obtain ⟨hf, ha⟩ :=
      validatePlugin_lists steampipeProtocolVersion ReservedConnectionNames updates st p
    obtain ⟨ihf, iha⟩ :=
      ih (validatePlugin steampipeProtocolVersion ReservedConnectionNames updates st p)
    rw [List.foldl_cons, ihf, iha, hf, ha]
    constructor
    · cases hfo : failureOf steampipeProtocolVersion ReservedConnectionNames p <;>
        simp [List.filterMap_cons, hfo]
    · cases hpa : (passesProtocolCheck steampipeProtocolVersion p &&
          passesNameCheck ReservedConnectionNames p) <;>
        simp [List.filter_cons, hpa]

theorem validatePlugins_failures (steampipeProtocolVersion : Int)
    (ReservedConnectionNames : List String) (updates : ConnectionMap)
    (plugins : List ConnectionPlugin) :
    (ValidatePlugins steampipeProtocolVersion ReservedConnectionNames updates
        plugins).validationFailures =
      plugins.filterMap (failureOf steampipeProtocolVersion ReservedConnectionNames) := by
  simpa [ValidatePlugins] using
    (foldl_validatePlugin_lists steampipeProtocolVersion ReservedConnectionNames updates
      plugins ⟨[], [], []⟩).1

theorem validatePlugins_validated (steampipeProtocolVersion : Int)
    (ReservedConnectionNames : List String) (updates : ConnectionMap)
    (plugins : List ConnectionPlugin) :
    (ValidatePlugins steampipeProtocolVersion ReservedConnectionNames updates
        plugins).validatedPlugins =
      plugins.filter (fun p => passesProtocolCheck steampipeProtocolVersion p &&
        passesNameCheck ReservedConnectionNames p) := by
  simpa [ValidatePlugins] using
    (foldl_validatePlugin_lists steampipeProtocolVersion ReservedConnectionNames updates
      plugins ⟨[], [], []⟩).2

/-- A plugin has a failure exactly when it does not pass both checks. -/
theorem failureOf_isSome (steampipeProtocolVersion : Int)
    (ReservedConnectionNames : List String) (p : ConnectionPlugin) :
    (failureOf steampipeProtocolVersion ReservedConnectionNames p).isSome =
      !(passesProtocolCheck steampipeProtocolVersion p &&
        passesNameCheck ReservedConnectionNames p) := by
  unfold failureOf passesProtocolCheck passesNameCheck
  cases validateColumnDefVersion steampipeProtocolVersion p <;>
    cases validateConnectionName ReservedConnectionNames p <;> simp [Option.orElse]

theorem length_filterMap_add_length_filter {α β : Type} (f : α → Option β) (g : α → Bool)
    (h : ∀ a, (f a).isSome = !g a) :
    ∀ l : List α, (l.filterMap f).length + (l.filter g).length = l.length
  | [] => rfl
  | a :: l => by
    have ih := length_filterMap_add_length_filter f g h l
    have ha := h a
    cases hf : f a with
    | none =>
      have hg : g a = true := by simpa [hf] using ha
      simp only [List.filterMap_cons, hf, List.filter_cons, hg, if_true, List.length_cons]
      omega
    | some b =>
      have hg : g a = false := by simpa [hf] using ha
      simp [List.filterMap_cons, hf, List.filter_cons, hg]
      omega

/-- A failure of `validateColumnDefVersion` asks to drop the connection and names the
plugin and the connection. -/
theorem validateColumnDefVersion_failure (h : Int) (p : ConnectionPlugin) (f : ValidationFailure)
    (hf : validateColumnDefVersion h p = some f) :
    f.ShouldDropIfExists = true ∧ f.Plugin = p.PluginName ∧
      f.ConnectionName = p.ConnectionName := by
  unfold validateColumnDefVersion at hf
  by_cases h0 : p.ProtocolVersion = 0
  · rw [if_pos h0] at hf
    exact Option.noConfusion hf
  · by_cases hlt : h < p.ProtocolVersion
    · rw [if_neg h0, if_pos hlt] at hf
      cases hf
      exact ⟨rfl, rfl, rfl⟩
    · rw [if_neg h0, if_neg hlt] at hf
      exact Option.noConfusion hf

/-- C8: `validateColumnDefVersion` returns a failure exactly when the declared protocol
version `v` of the plugin is not 0 and the host version `h` is below it; `v = 0` passes for
every `h`, `v = 5` against `h = 3` fails; a failure it returns has `ShouldDropIfExists`
true and the plugin name and connection name of the plugin. -/
theorem C8_protocol_gate (h : Int) (p : ConnectionPlugin) :
    ((validateColumnDefVersion h p).isSome = true ↔
        p.ProtocolVersion ≠ 0 ∧ h < p.ProtocolVersion) ∧
      validateColumnDefVersion h { p with ProtocolVersion := 0 } = none ∧
      (validateColumnDefVersion 3 { p with ProtocolVersion := 5 }).isSome = true ∧
      (∀ f, validateColumnDefVersion h p = some f →
        f.ShouldDropIfExists = true ∧ f.Plugin = p.PluginName ∧
          f.ConnectionName = p.ConnectionName) := by
  refine ⟨validateColumnDefVersion_isSome h p, ?_, ?_, ?_⟩
  · unfold validateColumnDefVersion
    rw [if_pos rfl]
  · rw [validateColumnDefVersion_isSome]
    exact ⟨show (5 : Int) ≠ 0 by decide, show (3 : Int) < 5 by decide⟩
  · exact validateColumnDefVersion_failure h p

/-- C8 at the plugin `hub/aws@latest` of the connection `aws` with the declared version 5,
on a host of version 3: a failure is returned, with `ShouldDropIfExists` true. -/
theorem C8_protocol_gate_witness :
    (validateColumnDefVersion 3 ⟨"aws", "hub/aws@latest", 5⟩).isSome = true ∧
      (∀ f, validateColumnDefVersion 3 ⟨"aws", "hub/aws@latest", 5⟩ = some f →
        f.ShouldDropIfExists = true ∧ f.Plugin = "hub/aws@latest" ∧
          f.ConnectionName = "aws") :=
  ⟨(C8_protocol_gate 3 ⟨"aws", "hub/aws@latest", 5⟩).1.2 ⟨by decide, by decide⟩,
    (C8_protocol_gate 3 ⟨"aws", "hub/aws@latest", 5⟩).2.2.2⟩

/-- C9, as stated, fails: the candidate is named `public`, a reserved name, and declares
the protocol version 5 on a host of version 3; the one failure that `ValidatePlugins`
records for it is that of the protocol check, with `ShouldDropIfExists` true. -/
theorem C9_counterexample_reserved_name_newer_protocol :
    "public" ∈ ["public"] ∧
      (ValidatePlugins 3 ["public"] [] [⟨"public", "hub/aws", 5⟩]).validationFailures =
        [⟨"hub/aws", "public",
          "Incompatible steampipe-plugin-sdk version. Please upgrade Steampipe.", true⟩] :=
  ⟨List.mem_singleton.2 rfl, rfl⟩

/-- C9, amended: a candidate whose connection name is reserved is rejected by
`ValidatePlugins` for every declared protocol version and every host version: it is not
among the validated plugins and a failure with its connection name and plugin name is
recorded. When it passes the protocol check (declared version 0, or at most the host
version), the failure recorded for it is that of the name check, with `ShouldDropIfExists`
false. -/
theorem C9_reserved_name_rejected (h : Int) (ReservedConnectionNames : List String)
    (updates : ConnectionMap) (plugins : List ConnectionPlugin) (p : ConnectionPlugin)
    (hres : p.ConnectionName ∈ ReservedConnectionNames) (hmem : p ∈ plugins) :
    p ∉ (ValidatePlugins h ReservedConnectionNames updates plugins).validatedPlugins ∧
      (∃ f ∈ (ValidatePlugins h ReservedConnectionNames updates plugins).validationFailures,
        f.ConnectionName = p.ConnectionName ∧ f.Plugin = p.PluginName) ∧
      (p.ProtocolVersion = 0 ∨ p.ProtocolVersion ≤ h →
        (reservedNameFailure ReservedConnectionNames p).ShouldDropIfExists = false ∧
        (∀ st, (validatePlugin h ReservedConnectionNames updates st p).validationFailures =
          st.validationFailures ++ [reservedNameFailure ReservedConnectionNames p]) ∧
        reservedNameFailure ReservedConnectionNames p ∈
          (ValidatePlugins h ReservedConnectionNames updates plugins).validationFailures) := by
  have hcontains := (stringSliceContains_iff ReservedConnectionNames p.ConnectionName).2 hres
  have hname : validateConnectionName ReservedConnectionNames p =
      some (reservedNameFailure ReservedConnectionNames p) := by
    unfold validateConnectionName
    rw [if_pos hcontains]
    rfl
  have hnopass : passesNameCheck ReservedConnectionNames p = false := by
    rw [passesNameCheck, hname]; rfl
  refine ⟨?_, ?_, ?_⟩
  · rw [validatePlugins_validated, List.mem_filter, hnopass, Bool.and_false]
    exact fun h => Bool.noConfusion h.2
  · rw [validatePlugins_failures]
    cases hcol : validateColumnDefVersion h p with
    | some f =>
      have hf := (validateColumnDefVersion_failure h p f hcol)
      refine ⟨f, List.mem_filterMap.2 ⟨p, hmem, ?_⟩, hf.2.2, hf.2.1⟩
      simp [failureOf, hcol]
    | none =>
      refine ⟨reservedNameFailure ReservedConnectionNames p,
        List.mem_filterMap.2 ⟨p, hmem, ?_⟩, rfl, rfl⟩
      simp [failureOf, hcol, hname]
  · intro hproto
    have hcol : validateColumnDefVersion h p = none := by
      cases hc : validateColumnDefVersion h p with
      | none => rfl
      | some f =>
        have hsome := (validateColumnDefVersion_isSome h p).1 (by rw [hc]; rfl)
        rcases hproto with h0 | hle
        · exact absurd h0 hsome.1
        · exact absurd hsome.2 (not_lt.2 hle)
    refine ⟨rfl, ?_, ?_⟩
    · intro st
      simp only [validatePlugin, hcol, hname]
    · rw [validatePlugins_failures]
      refine List.mem_filterMap.2 ⟨p, hmem, ?_⟩
      simp [failureOf, hcol, hname]

/-- C9, amended, at the candidate `public` (reserved) with the declared version 2 on a
host of version 3: the failure of the name check is recorded, with `ShouldDropIfExists`
false. -/
theorem C9_reserved_name_rejected_witness :
    (⟨"public", "hub/aws", 2⟩ : ConnectionPlugin) ∉
        (ValidatePlugins 3 ["public"] [] [⟨"public", "hub/aws", 2⟩]).validatedPlugins ∧
      (reservedNameFailure ["public"] ⟨"public", "hub/aws", 2⟩).ShouldDropIfExists = false ∧
      reservedNameFailure ["public"] ⟨"public", "hub/aws", 2⟩ ∈
        (ValidatePlugins 3 ["public"] [] [⟨"public", "hub/aws", 2⟩]).validationFailures := by
  have h := C9_reserved_name_rejected 3 ["public"] [] [⟨"public", "hub/aws", 2⟩]
    ⟨"public", "hub/aws", 2⟩ (List.mem_singleton.2 rfl) (List.mem_singleton.2 rfl)
  have h' := h.2.2 (Or.inr (by decide))
  exact ⟨h.1, h'.1, h'.2.2⟩

/-- C10: `ValidatePlugins` partitions the candidates. Each turn of its loop appends the
candidate to the validated plugins and leaves the failures, or appends one failure and
leaves the validated plugins; so the validated plugins are the candidates that pass both
the protocol check and the name check, in their order, the failures are those of the other
candidates, in their order, and the two lengths add up to the number of candidates. -/
theorem C10_partition (h : Int) (ReservedConnectionNames : List String)
    (updates : ConnectionMap) (plugins : List ConnectionPlugin) :
    (ValidatePlugins h ReservedConnectionNames updates plugins).validationFailures.length +
        (ValidatePlugins h ReservedConnectionNames updates plugins).validatedPlugins.length =
      plugins.length ∧
    (ValidatePlugins h ReservedConnectionNames updates plugins).validatedPlugins =
      plugins.filter
        (fun p => passesProtocolCheck h p && passesNameCheck ReservedConnectionNames p) ∧
    (ValidatePlugins h ReservedConnectionNames updates plugins).validationFailures =
      plugins.filterMap (failureOf h ReservedConnectionNames) ∧
    (∀ p, (failureOf h ReservedConnectionNames p).isSome =
      !(passesProtocolCheck h p && passesNameCheck ReservedConnectionNames p)) ∧
    (∀ st p,
      ((passesProtocolCheck h p && passesNameCheck ReservedConnectionNames p) = true ∧
        (validatePlugin h ReservedConnectionNames updates st p).validatedPlugins =
          st.validatedPlugins ++ [p] ∧
        (validatePlugin h ReservedConnectionNames updates st p).validationFailures =
          st.validationFailures) ∨
      ((passesProtocolCheck h p && passesNameCheck ReservedConnectionNames p) = false ∧
        (validatePlugin h ReservedConnectionNames updates st p).validatedPlugins =
          st.validatedPlugins ∧
        ∃ f, (validatePlugin h ReservedConnectionNames updates st p).validationFailures =
          st.validationFailures ++ [f])) := by
  refine ⟨?_, validatePlugins_validated h ReservedConnectionNames updates plugins,
    validatePlugins_failures h ReservedConnectionNames updates plugins,
    failureOf_isSome h ReservedConnectionNames, ?_⟩
  · rw [validatePlugins_validated, validatePlugins_failures]
    exact length_filterMap_add_length_filter _ _ (failureOf_isSome h ReservedConnectionNames)
      plugins
  · intro st p
    obtain ⟨hf, ha⟩ := validatePlugin_lists h ReservedConnectionNames updates st p
    have hsome := failureOf_isSome h ReservedConnectionNames p
    cases hpass : (passesProtocolCheck h p && passesNameCheck ReservedConnectionNames p)
    · right
      rw [hpass] at hsome ha
      cases hfo : failureOf h ReservedConnectionNames p with
      | none => rw [hfo] at hsome; exact Bool.noConfusion hsome
      | some f =>
        rw [hfo] at hf
        exact ⟨rfl, by simpa using ha, f, by simpa using hf⟩
    · left
      rw [hpass] at hsome ha
      cases hfo : failureOf h ReservedConnectionNames p with
      | some f => rw [hfo] at hsome; exact Bool.noConfusion hsome
      | none =>
        rw [hfo] at hf
        exact ⟨rfl, by simpa using ha, by simpa using hf⟩

/-! ## The validated updates -/

theorem GoMap.mem_keys_iff {V : Type} (m : GoMap V) (k : String) :
    k ∈ m.keys ↔ (m.get? k).isSome = true := by
  induction m with
  | nil => simp [GoMap.keys, GoMap.get?]
  | cons e rest ih =>
    obtain ⟨j, v⟩ := e
    by_cases h : j = k
    · simp [GoMap.keys, GoMap.get?, h]
    · have ih' : k ∈ List.map Prod.fst rest ↔ (GoMap.get? rest k).isSome = true := ih
      simp only [GoMap.keys, List.map_cons, List.mem_cons, GoMap.get?, if_neg h, ih']
      constructor
      · rintro (hk | hk)
        · exact absurd hk.symm h
        · exact hk
      · exact Or.inr

theorem GoMap.keys_set {V : Type} (m : GoMap V) (k : String) (v : V) :
    (m.set k v).keys = if k ∈ m.keys then m.keys else m.keys ++ [k] := by
  induction m with
  | nil => simp [GoMap.keys, GoMap.set]
  | cons e rest ih =>
    obtain ⟨j, w⟩ := e
    have ih' : List.map Prod.fst (GoMap.set rest k v) =
        if k ∈ List.map Prod.fst rest then List.map Prod.fst rest
        else List.map Prod.fst rest ++ [k] := ih
    by_cases h : j = k
    · subst h
      simp [GoMap.keys, GoMap.set]
    · have hkj : ¬ k = j := fun e => h e.symm
      simp only [GoMap.keys, GoMap.set, if_neg h, List.map_cons, List.mem_cons, hkj, false_or,
        ih']
      by_cases hm : k ∈ List.map Prod.fst rest <;> simp [hm]

theorem GoMap.keys_set_nodup {V : Type} (m : GoMap V) (k : String) (v : V)
    (h : m.keys.Nodup) : (m.set k v).keys.Nodup := by
  rw [GoMap.keys_set]
  by_cases hm : k ∈ m.keys
  · rw [if_pos hm]; exact h
  · rw [if_neg hm]
    exact List.Nodup.append h (List.nodup_singleton k)
      (fun x hx hx' => hm (List.mem_singleton.1 hx' ▸ hx))

/-- One turn of the loop of `ValidatePlugins` writes the update of the plugin when it
passes both checks, and leaves the validated updates otherwise. -/
theorem validatePlugin_updates (steampipeProtocolVersion : Int)
    (ReservedConnectionNames : List String) (updates : ConnectionMap) (st : ValidationState)
    (p : ConnectionPlugin) :
    (validatePlugin steampipeProtocolVersion ReservedConnectionNames updates st
        p).validatedUpdates =
      if passesProtocolCheck steampipeProtocolVersion p &&
          passesNameCheck ReservedConnectionNames p then
        st.validatedUpdates.set p.ConnectionName ((updates.get? p.ConnectionName).getD default)
      else st.validatedUpdates := by
  unfold validatePlugin passesProtocolCheck passesNameCheck
  cases h1 : validateColumnDefVersion steampipeProtocolVersion p with
  | some f => simp
  | none =>
    cases h2 : validateConnectionName ReservedConnectionNames p with
    | some f => simp
    | none => simp

theorem mem_names_filter_cons (g : ConnectionPlugin → Bool) (p : ConnectionPlugin)
    (ps : List ConnectionPlugin) (k : String) :
    k ∈ ((p :: ps).filter g).map ConnectionPlugin.ConnectionName ↔
      (g p = true ∧ k = p.ConnectionName) ∨
        k ∈ (ps.filter g).map ConnectionPlugin.ConnectionName := by
  simp only [List.mem_map, List.mem_filter, List.mem_cons]
  constructor
  · rintro ⟨q, ⟨hq | hq, hg⟩, rfl⟩
    · exact Or.inl ⟨hq ▸ hg, by rw [hq]⟩
    · exact Or.inr ⟨q, ⟨hq, hg⟩, rfl⟩
  · rintro (⟨hg, rfl⟩ | ⟨q, ⟨hq, hg⟩, rfl⟩)
    · exact ⟨p, ⟨Or.inl rfl, hg⟩, rfl⟩
    · exact ⟨q, ⟨Or.inr hq, hg⟩, rfl⟩

theorem foldl_validatePlugin_updates (steampipeProtocolVersion : Int)
    (ReservedConnectionNames : List String) (updates : ConnectionMap)
    (plugins : List ConnectionPlugin) (k : String) :
    ∀ st : ValidationState,
      (plugins.foldl
          (validatePlugin steampipeProtocolVersion ReservedConnectionNames updates)
          st).validatedUpdates.get? k =
        if k ∈ (plugins.filter (fun p => passesProtocolCheck steampipeProtocolVersion p &&
            passesNameCheck ReservedConnectionNames p)).map ConnectionPlugin.ConnectionName then
          some ((updates.get? k).getD default)
        else st.validatedUpdates.get? k := by
  induction plugins with
  | nil => intro st; simp
  | cons p ps ih =>
    intro st
    rw [List.foldl_cons, ih, validatePlugin_updates]
    have hcons := mem_names_filter_cons
      (fun p => passesProtocolCheck steampipeProtocolVersion p &&
        passesNameCheck ReservedConnectionNames p) p ps k
    by_cases hps : k ∈ (ps.filter (fun p => passesProtocolCheck steampipeProtocolVersion p &&
        passesNameCheck ReservedConnectionNames p)).map ConnectionPlugin.ConnectionName
    · rw [if_pos hps, if_pos (hcons.2 (Or.inr hps))]
    · rw [if_neg hps]
      by_cases hpass : (passesProtocolCheck steampipeProtocolVersion p &&
          passesNameCheck ReservedConnectionNames p) = true
      · rw [if_pos hpass]
        by_cases hk : k = p.ConnectionName
        · rw [if_pos (hcons.2 (Or.inl ⟨hpass, hk⟩)), hk, GoMap.get?_set_self]
        · have hnot : ¬ k ∈ ((p :: ps).filter
              (fun p => passesProtocolCheck steampipeProtocolVersion p &&
                passesNameCheck ReservedConnectionNames p)).map
                ConnectionPlugin.ConnectionName := by
            intro hm
            rcases hcons.1 hm with ⟨_, h⟩ | h
            · exact hk h
            · exact hps h
          rw [if_neg hnot, GoMap.get?_set_of_ne _ _ _ _ hk]
      · have hnot : ¬ k ∈ ((p :: ps).filter
            (fun p => passesProtocolCheck steampipeProtocolVersion p &&
              passesNameCheck ReservedConnectionNames p)).map
              ConnectionPlugin.ConnectionName := by
          intro hm
          rcases hcons.1 hm with ⟨hg, _⟩ | h
          · exact hpass hg
          · exact hps h
        rw [if_neg hpass, if_neg hnot]

theorem foldl_validatePlugin_keys_nodup (steampipeProtocolVersion : Int)
    (ReservedConnectionNames : List String) (updates : ConnectionMap)
    (plugins : List ConnectionPlugin) :
    ∀ st : ValidationState, st.validatedUpdates.keys.Nodup →
      (plugins.foldl
          (validatePlugin steampipeProtocolVersion ReservedConnectionNames updates)
          st).validatedUpdates.keys.Nodup := by
  induction plugins with
  | nil => intro st h; exact h
  | cons p ps ih =>
    intro st h
    rw [List.foldl_cons]
    apply ih
    rw [validatePlugin_updates]
    cases (passesProtocolCheck steampipeProtocolVersion p &&
        passesNameCheck ReservedConnectionNames p)
    · exact h
    · exact GoMap.keys_set_nodup _ _ _ h

/-- The validated updates hold, for the connection name of each validated plugin, the
value that the updates give for it, and hold no other key. -/
theorem validatePlugins_updates_get? (steampipeProtocolVersion : Int)
    (ReservedConnectionNames : List String) (updates : ConnectionMap)
    (plugins : List ConnectionPlugin) (k : String) :
    (ValidatePlugins steampipeProtocolVersion ReservedConnectionNames updates
        plugins).validatedUpdates.get? k =
      if k ∈ (ValidatePlugins steampipeProtocolVersion ReservedConnectionNames updates
          plugins).validatedPlugins.map ConnectionPlugin.ConnectionName then
        some ((updates.get? k).getD default)
      else none := by
  rw [validatePlugins_validated]
  simpa [ValidatePlugins, GoMap.get?] using
    foldl_validatePlugin_updates steampipeProtocolVersion ReservedConnectionNames updates
      plugins k ⟨[], [], []⟩

theorem validatePlugins_keys_nodup (steampipeProtocolVersion : Int)
    (ReservedConnectionNames : List String) (updates : ConnectionMap)
    (plugins : List ConnectionPlugin) :
    (ValidatePlugins steampipeProtocolVersion ReservedConnectionNames updates
        plugins).validatedUpdates.keys.Nodup :=
  foldl_validatePlugin_keys_nodup steampipeProtocolVersion ReservedConnectionNames updates
    plugins ⟨[], [], []⟩ List.nodup_nil

theorem validatePlugins_mem_keys (steampipeProtocolVersion : Int)
    (ReservedConnectionNames : List String) (updates : ConnectionMap)
    (plugins : List ConnectionPlugin) (k : String) :
    k ∈ (ValidatePlugins steampipeProtocolVersion ReservedConnectionNames updates
        plugins).validatedUpdates.keys ↔
      k ∈ (ValidatePlugins steampipeProtocolVersion ReservedConnectionNames updates
        plugins).validatedPlugins.map ConnectionPlugin.ConnectionName := by
  rw [GoMap.mem_keys_iff, validatePlugins_updates_get?]
  by_cases hk : k ∈ (ValidatePlugins steampipeProtocolVersion ReservedConnectionNames updates
      plugins).validatedPlugins.map ConnectionPlugin.ConnectionName
  · rw [if_pos hk]; exact ⟨fun _ => hk, fun _ => rfl⟩
  · rw [if_neg hk]; exact ⟨fun h => Bool.noConfusion h, fun h => absurd h hk⟩

/-- C11: the validated updates that `ValidatePlugins` returns have as keys exactly the
connection names of the validated plugins, each once; for each such name that has an entry
in the updates given, they hold the value of that entry. The updates given are only read:
`ValidatePlugins` does not write to them. -/
theorem C11_validated_updates (h : Int) (ReservedConnectionNames : List String)
    (updates : ConnectionMap) (plugins : List ConnectionPlugin) :
    (∀ k, k ∈ (ValidatePlugins h ReservedConnectionNames updates plugins).validatedUpdates.keys ↔
      k ∈ (ValidatePlugins h ReservedConnectionNames updates plugins).validatedPlugins.map
        ConnectionPlugin.ConnectionName) ∧
    (ValidatePlugins h ReservedConnectionNames updates plugins).validatedUpdates.keys.Nodup ∧
    (∀ k v,
      k ∈ (ValidatePlugins h ReservedConnectionNames updates plugins).validatedPlugins.map
        ConnectionPlugin.ConnectionName →
      updates.get? k = some v →
      (ValidatePlugins h ReservedConnectionNames updates plugins).validatedUpdates.get? k =
        some v) := by
  refine ⟨validatePlugins_mem_keys h ReservedConnectionNames updates plugins,
    validatePlugins_keys_nodup h ReservedConnectionNames updates plugins, ?_⟩
  intro k v hk hv
  rw [validatePlugins_updates_get?, if_pos hk, hv]
  rfl

/-- C11 at the candidates `aws` (validated) and `public` (reserved), with updates for
both: the validated updates hold the key `aws` only, with the value given for it. -/
theorem C11_validated_updates_witness :
    (ValidatePlugins 3 ["public"] [("public", ⟨"hub/pg"⟩), ("aws", ⟨"hub/aws@1"⟩)]
        [⟨"aws", "hub/aws@1", 2⟩, ⟨"public", "hub/pg", 0⟩]).validatedUpdates.keys = ["aws"] ∧
      (ValidatePlugins 3 ["public"] [("public", ⟨"hub/pg"⟩), ("aws", ⟨"hub/aws@1"⟩)]
        [⟨"aws", "hub/aws@1", 2⟩, ⟨"public", "hub/pg", 0⟩]).validatedUpdates.get? "aws" =
        some ⟨"hub/aws@1"⟩ :=
  ⟨by decide,
    (C11_validated_updates 3 ["public"] [("public", ⟨"hub/pg"⟩), ("aws", ⟨"hub/aws@1"⟩)]
      [⟨"aws", "hub/aws@1", 2⟩, ⟨"public", "hub/pg", 0⟩]).2.2 "aws" ⟨"hub/aws@1"⟩
      (by decide) (by decide)⟩

/-- C12, as stated, fails: the candidate `aws` passes both checks and the updates given
have no entry for `aws`; the validated updates that `ValidatePlugins` returns have the key
`aws`, with the zero value. -/
theorem C12_counterexample_missing_update_stored :
    passesProtocolCheck 3 ⟨"aws", "hub/aws", 0⟩ = true ∧
      passesNameCheck ["public"] ⟨"aws", "hub/aws", 0⟩ = true ∧
      GoMap.get? ([] : ConnectionMap) "aws" = none ∧
      (ValidatePlugins 3 ["public"] [] [⟨"aws", "hub/aws", 0⟩]).validatedUpdates =
        [("aws", default)] ∧
      "aws" ∈ (ValidatePlugins 3 ["public"] [] [⟨"aws", "hub/aws", 0⟩]).validatedUpdates.keys := by
  decide

/-- C12, amended: for a candidate that passes both checks and whose connection name has no
entry in the updates given, `ValidatePlugins` returns (the read of the missing key yields
the zero value, no error is raised), the candidate is among the validated plugins, and the
validated updates have an entry for its connection name, which holds the zero value of the
values of the map, not a value of the updates given. -/
theorem C12_missing_update_zero_value (h : Int) (ReservedConnectionNames : List String)
    (updates : ConnectionMap) (plugins : List ConnectionPlugin) (p : ConnectionPlugin)
    (hmem : p ∈ plugins) (hproto : passesProtocolCheck h p = true)
    (hname : passesNameCheck ReservedConnectionNames p = true)
    (hmissing : updates.get? p.ConnectionName = none) :
    p ∈ (ValidatePlugins h ReservedConnectionNames updates plugins).validatedPlugins ∧
      p.ConnectionName ∈
        (ValidatePlugins h ReservedConnectionNames updates plugins).validatedUpdates.keys ∧
      (ValidatePlugins h ReservedConnectionNames updates plugins).validatedUpdates.get?
        p.ConnectionName = some default := by
  have hval : p ∈ (ValidatePlugins h ReservedConnectionNames updates plugins).validatedPlugins := by
    rw [validatePlugins_validated, List.mem_filter]
    exact ⟨hmem, by rw [hproto, hname]; rfl⟩
  have hk : p.ConnectionName ∈
      (ValidatePlugins h ReservedConnectionNames updates plugins).validatedPlugins.map
        ConnectionPlugin.ConnectionName := List.mem_map.2 ⟨p, hval, rfl⟩
  refine ⟨hval, (validatePlugins_mem_keys h ReservedConnectionNames updates plugins _).2 hk, ?_⟩
  rw [validatePlugins_updates_get?, if_pos hk, hmissing]
  rfl

/-- C12, amended, at the candidate `aws` with no update given for it. -/
theorem C12_missing_update_zero_value_witness :
    (⟨"aws", "hub/aws", 0⟩ : ConnectionPlugin) ∈
        (ValidatePlugins 3 ["public"] [] [⟨"aws", "hub/aws", 0⟩]).validatedPlugins ∧
      "aws" ∈ (ValidatePlugins 3 ["public"] [] [⟨"aws", "hub/aws", 0⟩]).validatedUpdates.keys ∧
      (ValidatePlugins 3 ["public"] [] [⟨"aws", "hub/aws", 0⟩]).validatedUpdates.get? "aws" =
        some default :=
  C12_missing_update_zero_value 3 ["public"] [] [⟨"aws", "hub/aws", 0⟩] ⟨"aws", "hub/aws", 0⟩
    (List.mem_singleton.2 rfl) (by decide) (by decide) (by decide)

/-! ## Order of the checks, and rejected candidates -/

theorem validateColumnDefVersion_of_newer (h : Int) (p : ConnectionPlugin)
    (hv0 : p.ProtocolVersion ≠ 0) (hlt : h < p.ProtocolVersion) :
    validateColumnDefVersion h p = some (incompatibleVersionFailure p) := by
  unfold validateColumnDefVersion
  rw [if_neg hv0, if_pos hlt]
  rfl

theorem validateConnectionName_of_reserved (ReservedConnectionNames : List String)
    (p : ConnectionPlugin) (hres : p.ConnectionName ∈ ReservedConnectionNames) :
    validateConnectionName ReservedConnectionNames p =
      some (reservedNameFailure ReservedConnectionNames p) := by
  unfold validateConnectionName
  rw [if_pos ((stringSliceContains_iff ReservedConnectionNames p.ConnectionName).2 hres)]
  rfl

theorem validateConnectionName_failure (ReservedConnectionNames : List String)
    (p : ConnectionPlugin) (f : ValidationFailure)
    (hf : validateConnectionName ReservedConnectionNames p = some f) :
    f.ShouldDropIfExists = false ∧ f.Plugin = p.PluginName ∧
      f.ConnectionName = p.ConnectionName := by
  unfold validateConnectionName at hf
  by_cases hc : StringSliceContains ReservedConnectionNames p.ConnectionName = true
  · rw [if_pos hc] at hf
    cases hf
    exact ⟨rfl, rfl, rfl⟩
  · rw [if_neg hc] at hf
    exact Option.noConfusion hf

/-- The failure recorded for a plugin carries its connection name and plugin name. -/
theorem failureOf_names (h : Int) (ReservedConnectionNames : List String)
    (p : ConnectionPlugin) (f : ValidationFailure)
    (hf : failureOf h ReservedConnectionNames p = some f) :
    f.ConnectionName = p.ConnectionName ∧ f.Plugin = p.PluginName := by
  unfold failureOf at hf
  cases hcol : validateColumnDefVersion h p with
  | some g =>
    rw [hcol] at hf
    have hg : g = f := by simpa [Option.orElse] using hf
    subst hg
    exact ⟨(validateColumnDefVersion_failure h p g hcol).2.2,
      (validateColumnDefVersion_failure h p g hcol).2.1⟩
  | none =>
    rw [hcol] at hf
    have hn : validateConnectionName ReservedConnectionNames p = some f := by
      simpa [Option.orElse] using hf
    exact ⟨(validateConnectionName_failure ReservedConnectionNames p f hn).2.2,
      (validateConnectionName_failure ReservedConnectionNames p f hn).2.1⟩

/-- C16: the protocol check runs first and a failing check ends the turn. For a candidate
that fails both checks (declared version not 0 and above the host version, connection name
reserved), the turn of the loop of `ValidatePlugins` records one failure, that of the
protocol check, with `ShouldDropIfExists` true, and validates nothing; in the failures of a
run the candidate stands for exactly that one failure, at its place. -/
theorem C16_protocol_failure_first (h : Int) (ReservedConnectionNames : List String)
    (updates : ConnectionMap) (pre post : List ConnectionPlugin) (p : ConnectionPlugin)
    (hv0 : p.ProtocolVersion ≠ 0) (hlt : h < p.ProtocolVersion)
    (hres : p.ConnectionName ∈ ReservedConnectionNames) :
    validateColumnDefVersion h p = some (incompatibleVersionFailure p) ∧
      validateConnectionName ReservedConnectionNames p =
        some (reservedNameFailure ReservedConnectionNames p) ∧
      (incompatibleVersionFailure p).ShouldDropIfExists = true ∧
      (∀ st, validatePlugin h ReservedConnectionNames updates st p =
        { st with validationFailures := st.validationFailures ++
            [incompatibleVersionFailure p] }) ∧
      (ValidatePlugins h ReservedConnectionNames updates (pre ++ p :: post)).validationFailures =
        (ValidatePlugins h ReservedConnectionNames updates pre).validationFailures ++
          incompatibleVersionFailure p ::
            (ValidatePlugins h ReservedConnectionNames updates post).validationFailures := by
  have hcol := validateColumnDefVersion_of_newer h p hv0 hlt
  refine ⟨hcol, validateConnectionName_of_reserved ReservedConnectionNames p hres, rfl, ?_, ?_⟩
  · intro st
    simp only [validatePlugin, hcol]
  · have hfo : failureOf h ReservedConnectionNames p = some (incompatibleVersionFailure p) := by
      rw [failureOf, hcol]; rfl
    simp only [validatePlugins_failures, List.filterMap_append, List.filterMap_cons, hfo]

/-- C16 at the candidate `public` (reserved) with the declared version 5 on a host of
version 3, between two other candidates: its one failure is that of the protocol check. -/
theorem C16_protocol_failure_first_witness :
    (ValidatePlugins 3 ["public"] []
        ([⟨"aws", "hub/aws", 0⟩] ++ ⟨"public", "hub/pg", 5⟩ ::
          [⟨"gcp", "hub/gcp", 4⟩])).validationFailures =
      (ValidatePlugins 3 ["public"] [] [⟨"aws", "hub/aws", 0⟩]).validationFailures ++
        incompatibleVersionFailure ⟨"public", "hub/pg", 5⟩ ::
          (ValidatePlugins 3 ["public"] [] [⟨"gcp", "hub/gcp", 4⟩]).validationFailures :=
  (C16_protocol_failure_first 3 ["public"] [] [⟨"aws", "hub/aws", 0⟩] [⟨"gcp", "hub/gcp", 4⟩]
    ⟨"public", "hub/pg", 5⟩ (by decide) (by decide) (List.mem_singleton.2 rfl)).2.2.2.2

/-- C17, as stated, fails: two candidates have the connection name `aws`; the first passes
both checks, the second declares the version 5 on a host of version 3. The failures carry
the name `aws`, and `aws` is a key of the validated updates. -/
theorem C17_counterexample_shared_connection_name :
    (ValidatePlugins 3 [] []
        [⟨"aws", "hub/aws@1", 0⟩, ⟨"aws", "hub/aws@2", 5⟩]).validationFailures.map
        ValidationFailure.ConnectionName = ["aws"] ∧
      "aws" ∈ (ValidatePlugins 3 [] []
        [⟨"aws", "hub/aws@1", 0⟩, ⟨"aws", "hub/aws@2", 5⟩]).validatedUpdates.keys := by
  decide

/-- C17, amended: for every sequence of candidates, a candidate is validated exactly when
it passes both checks itself, and taking a rejected candidate out of the sequence changes
neither the validated plugins nor the validated updates. When the connection names of the
candidates are distinct, no connection name carried by a failure is a key of the validated
updates. -/
theorem C17_rejected_excluded (h : Int) (ReservedConnectionNames : List String)
    (updates : ConnectionMap) (plugins : List ConnectionPlugin) :
    (∀ p ∈ plugins,
      p ∈ (ValidatePlugins h ReservedConnectionNames updates plugins).validatedPlugins ↔
        (passesProtocolCheck h p && passesNameCheck ReservedConnectionNames p) = true) ∧
    (∀ pre q post, plugins = pre ++ q :: post →
      (passesProtocolCheck h q && passesNameCheck ReservedConnectionNames q) = false →
      (ValidatePlugins h ReservedConnectionNames updates plugins).validatedPlugins =
          (ValidatePlugins h ReservedConnectionNames updates (pre ++ post)).validatedPlugins ∧
        ∀ k,
          (ValidatePlugins h ReservedConnectionNames updates plugins).validatedUpdates.get? k =
            (ValidatePlugins h ReservedConnectionNames updates
              (pre ++ post)).validatedUpdates.get? k) ∧
    ((plugins.map ConnectionPlugin.ConnectionName).Nodup →
      ∀ f ∈ (ValidatePlugins h ReservedConnectionNames updates plugins).validationFailures,
        f.ConnectionName ∉
          (ValidatePlugins h ReservedConnectionNames updates plugins).validatedUpdates.keys) := by
  refine ⟨?_, ?_, ?_⟩
  · intro p hp
    rw [validatePlugins_validated, List.mem_filter]
    exact ⟨fun hm => hm.2, fun hpass => ⟨hp, hpass⟩⟩
  · intro pre q post hpl hrej
    have hfilter :
        List.filter
            (fun p => passesProtocolCheck h p && passesNameCheck ReservedConnectionNames p)
            (pre ++ q :: post) =
          List.filter
            (fun p => passesProtocolCheck h p && passesNameCheck ReservedConnectionNames p)
            (pre ++ post) := by
      rw [List.filter_append, List.filter_append, List.filter_cons, hrej]
      rfl
    refine ⟨?_, ?_⟩
    · rw [hpl, validatePlugins_validated, validatePlugins_validated, hfilter]
    · intro k
      rw [hpl, validatePlugins_updates_get?, validatePlugins_updates_get?,
        validatePlugins_validated, validatePlugins_validated, hfilter]
  · intro hdistinct f hf hkey
    rw [validatePlugins_failures, List.mem_filterMap] at hf
    obtain ⟨q, hq, hfq⟩ := hf
    rw [validatePlugins_mem_keys, validatePlugins_validated, List.mem_map] at hkey
    obtain ⟨p, hp, hpn⟩ := hkey
    rw [List.mem_filter] at hp
    have hname : p.ConnectionName = q.ConnectionName := by
      rw [hpn, (failureOf_names h ReservedConnectionNames q f hfq).1]
    have hpq : p = q := List.inj_on_of_nodup_map hdistinct hp.1 hq hname
    have hsome := failureOf_isSome h ReservedConnectionNames q
    rw [hfq, ← hpq, hp.2] at hsome
    exact Bool.noConfusion hsome

/-- C17, amended. At the candidates `aws` (validated) and `gcp` (declared version 5 on a
host of version 3), the name `gcp` of the failure is not a key of the validated updates. At
two candidates that share the name `aws`, the second of them rejected, the validated
plugins are those of the sequence without the rejected one. -/
theorem C17_rejected_excluded_witness :
    incompatibleVersionFailure ⟨"gcp", "hub/gcp", 5⟩ ∈
        (ValidatePlugins 3 ["public"] []
          [⟨"aws", "hub/aws", 0⟩, ⟨"gcp", "hub/gcp", 5⟩]).validationFailures ∧
      "gcp" ∉ (ValidatePlugins 3 ["public"] []
        [⟨"aws", "hub/aws", 0⟩, ⟨"gcp", "hub/gcp", 5⟩]).validatedUpdates.keys ∧
      (ValidatePlugins 3 [] []
          [⟨"aws", "hub/aws@1", 0⟩, ⟨"aws", "hub/aws@2", 5⟩]).validatedPlugins =
        (ValidatePlugins 3 [] [] ([⟨"aws", "hub/aws@1", 0⟩] ++ [])).validatedPlugins :=
  ⟨List.mem_singleton.2 rfl,
    (C17_rejected_excluded 3 ["public"] [] [⟨"aws", "hub/aws", 0⟩, ⟨"gcp", "hub/gcp", 5⟩]).2.2
      (by decide) (incompatibleVersionFailure ⟨"gcp", "hub/gcp", 5⟩)
      (List.mem_singleton.2 rfl),
    ((C17_rejected_excluded 3 [] []
      [⟨"aws", "hub/aws@1", 0⟩, ⟨"aws", "hub/aws@2", 5⟩]).2.1
      [⟨"aws", "hub/aws@1", 0⟩] ⟨"aws", "hub/aws@2", 5⟩ [] rfl (by decide)).1⟩

/-! ## The warning block -/

theorem warningsStrings_eq (failures : List ValidationFailure) :
    warningsStrings failures = failures.map ValidationFailure_String := by
  have h : ∀ (l : List ValidationFailure) (acc : List String),
      l.foldl (fun acc failure => acc ++ [ValidationFailure_String failure]) acc =
        acc ++ l.map ValidationFailure_String := by
    intro l
    induction l with
    | nil => intro acc; simp
    | cons f fs ih => intro acc; rw [List.foldl_cons, ih]; simp
  simpa [warningsStrings] using h failures []

theorem append_ne_empty_of_left (a b : String) (h : a ≠ "") : a ++ b ≠ "" := by
  intro hab
  have hd := congrArg String.data hab
  rw [String.data_append] at hd
  have ha : a.data = [] := (List.append_eq_nil.1 hd).1
  exact h (String.ext ha)

/-- C13: `BuildValidationWarningString` returns the empty string exactly when there is no
failure: the empty string for the empty sequence, a string that is not empty for every
other sequence. -/
theorem C13_empty_iff_no_failure (Red : String → String) (pluralize : String → Nat → String)
    (failures : List ValidationFailure) :
    BuildValidationWarningString Red pluralize failures = "" ↔ failures = [] := by
  constructor
  · intro h
    by_contra hne
    have hlen : ¬ failures.length = 0 := fun hl => hne (List.length_eq_zero.1 hl)
    unfold BuildValidationWarningString at h
    rw [if_neg hlen] at h
    have hstart : ("\n" : String) ≠ "" := by decide
    exact append_ne_empty_of_left _ _
      (append_ne_empty_of_left _ _
        (append_ne_empty_of_left _ _
          (append_ne_empty_of_left _ _
            (append_ne_empty_of_left _ _
              (append_ne_empty_of_left _ _
                (append_ne_empty_of_left _ _
                  (append_ne_empty_of_left _ _ hstart))))))) h
  · intro h
    subst h
    rfl

/-- C14: for a sequence of `n` failures that is not empty, `BuildValidationWarningString`
returns, after one line break, the lines of one block: the header (the title "Validation
Errors", coloured by `Red`, followed by `:`), an empty line, the renderings of the failures
in their order joined by an empty line, an empty line, and the line
`n <word> was not imported.`, where the word is `connection` for `n = 1` and `connections`
otherwise. The rendering of a failure is the three lines `Connection: `, `Plugin:     `,
`Error:      ` followed by its connection name, its plugin and its message, whatever its
`ShouldDropIfExists`. -/
theorem C14_warning_block (Red : String → String) (failures : List ValidationFailure)
    (hne : failures ≠ []) :
    BuildValidationWarningString Red Pluralize failures =
        "\n" ++ (Red "Validation Errors" ++ ":") ++ "\n" ++
          "\n" ++
          "\n\n".intercalate (failures.map ValidationFailure_String) ++ "\n" ++
          "\n" ++
          (toString failures.length ++ " " ++
            (if failures.length = 1 then "connection" else "connections") ++
            " was not imported.") ++ "\n" ∧
      (∀ f : ValidationFailure,
        ValidationFailure_String f =
          "Connection: " ++ f.ConnectionName ++ "\n" ++
            "Plugin:     " ++ f.Plugin ++ "\n" ++
            "Error:      " ++ f.Message) ∧
      (∀ (f : ValidationFailure) (b : Bool),
        ValidationFailure_String { f with ShouldDropIfExists := b } =
          ValidationFailure_String f) := by
  have hlen : ¬ failures.length = 0 := fun hl => hne (List.length_eq_zero.1 hl)
  have hword : Pluralize "connection" failures.length =
      (if failures.length = 1 then "connection" else "connections") := by
    unfold Pluralize
    by_cases h1 : failures.length = 1
    · rw [if_pos h1, if_pos h1]
    · rw [if_neg h1, if_neg h1]; rfl
  have e1 : (":\n\n" : String) = ":" ++ ("\n" ++ "\n") := by decide
  have e2 : ("\n\n" : String) = "\n" ++ "\n" := by decide
  have e3 : (" was not imported.\n" : String) = " was not imported." ++ "\n" := by decide
  have e4 : ("\nPlugin:     " : String) = "\n" ++ "Plugin:     " := by decide
  have e5 : ("\nError:      " : String) = "\n" ++ "Error:      " := by decide
  refine ⟨?_, ?_, ?_⟩
  · unfold BuildValidationWarningString
    rw [if_neg hlen, warningsStrings_eq]
    dsimp only
    rw [hword, e1, e2, e3]
    simp only [String.append_assoc]
  · intro f
    unfold ValidationFailure_String
    rw [e4, e5]
    simp only [String.append_assoc]
  · intro f b
    rfl

set_option maxRecDepth 100000 in
/-- C14 at the two failures of the candidates `public` and `gcp`, without colouring. -/
theorem C14_warning_block_witness :
    BuildValidationWarningString id Pluralize
        [reservedNameFailure ["public"] ⟨"public", "hub/pg", 0⟩,
          incompatibleVersionFailure ⟨"gcp", "hub/gcp", 5⟩] =
      "\nValidation Errors:\n\nConnection: public\nPlugin:     hub/pg\nError:      Connection name cannot be one of public\n\nConnection: gcp\nPlugin:     hub/gcp\nError:      Incompatible steampipe-plugin-sdk version. Please upgrade Steampipe.\n\n2 connections was not imported.\n" :=
  (C14_warning_block id
    [reservedNameFailure ["public"] ⟨"public", "hub/pg", 0⟩,
      incompatibleVersionFailure ⟨"gcp", "hub/gcp", 5⟩]
    (List.cons_ne_nil _ _)).1.trans (by decide)

/-! ## Schemas without a connection -/

/-- C15: a schema that has no entry in the connection map and is in the search path adds
all its tables to the unqualified names, from every state of the loop, that is whatever
plugin identities, the empty one included, are marked when it is visited; in a run its
tables are "Table" suggestions of the unqualified-table group. -/
theorem C15_connectionless_schema (schema : Metadata) (connectionMap : ConnectionMap)
    (pre post : List SchemaVisit) (v : SchemaVisit)
    (horder : schema.Schemas = pre ++ v :: post)
    (hnone : connectionMap.get? v.schemaName = none)
    (hsp : StringSliceContains schema.SearchPath v.schemaName = true) :
    (∀ st : LoopState,
      (visitSchema schema connectionMap st v).unqualifiedTablesToAdd =
        st.unqualifiedTablesToAdd ++ v.unqualifiedOrder) ∧
    (∀ t ∈ v.unqualifiedOrder, t ∈ unqualifiedGroup schema connectionMap) ∧
    (∀ t ∈ v.unqualifiedOrder,
      (⟨t, "Table"⟩ : Suggest) ∈ GetTableAutoCompleteSuggestions schema connectionMap) := by
  have hadd : ∀ m : GoMap Bool,
      addsUnqualified schema connectionMap m v.schemaName = true := by
    intro m
    simp [addsUnqualified, schemaOfSamePluginIncluded, hasConnectionForSchema, hnone, hsp]
  have hmem : ∀ t ∈ v.unqualifiedOrder, t ∈ unqualifiedGroup schema connectionMap := by
    intro t ht
    apply mem_unqualifiedGroup_of_visit connectionMap horder
    rw [unqualifiedContribution, if_pos (hadd _)]
    exact ht
  refine ⟨?_, hmem, ?_⟩
  · intro st
    rw [visitSchema_unqualified, unqualifiedContribution, if_pos (hadd _)]
  · intro t ht
    rw [getTableAutoCompleteSuggestions_eq]
    exact List.mem_append_left _ (List.mem_append_right _ (List.mem_map.2 ⟨t, hmem t ht, rfl⟩))

/-- C15 at the schema `public`, visited after a schema that has marked the empty plugin
identity: its table `users` is suggested unqualified. -/
theorem C15_connectionless_schema_witness :
    marked (visitSchemas publicMetadata publicConnections LoopState.init
        [⟨"odd", ["o"], ["o"]⟩]).pluginSchemaMap "" = true ∧
      "users" ∈ unqualifiedGroup publicMetadata publicConnections :=
  ⟨by decide,
    (C15_connectionless_schema publicMetadata publicConnections [⟨"odd", ["o"], ["o"]⟩] []
      ⟨"public", ["users"], ["users"]⟩ rfl (by decide) (by decide)).2.1 "users" (by decide)⟩

/-! ## `stripVersionFromPluginName` -/

theorem splitChars_head? (sep : Char) :
    ∀ l : List Char,
      (splitChars sep l).head? = some (l.takeWhile (fun c => !decide (c = sep)))
  | [] => by simp [splitChars]
  | c :: cs => by
    have ih := splitChars_head? sep cs
    unfold splitChars
    by_cases h : c = sep
    · simp [h]
    · rw [if_neg h]
      cases hs : splitChars sep cs with
      | nil => exact absurd hs (splitChars_ne_nil sep cs)
      | cons p ps =>
        rw [hs] at ih
        simp only [List.head?_cons, Option.some.injEq] at ih
        simp [h, ih]

/-- The characters of the stripped name: those of the name before its first `@`. -/
theorem stripVersionFromPluginName_data (pluginName : String) :
    (stripVersionFromPluginName pluginName).data =
      pluginName.data.takeWhile (fun c => !decide (c = '@')) := by
  have h := splitChars_head? '@' pluginName.data
  unfold stripVersionFromPluginName stringsSplitAt
  cases hs : splitChars '@' pluginName.data with
  | nil => exact absurd hs (splitChars_ne_nil '@' pluginName.data)
  | cons p ps =>
    rw [hs] at h
    simp only [List.head?_cons, Option.some.injEq] at h
    simp [h]

theorem stripVersionFromPluginName_of_no_at (n : String) (hn : '@' ∉ n.data) :
    stripVersionFromPluginName n = n := by
  apply String.ext
  rw [stripVersionFromPluginName_data, List.takeWhile_eq_self_iff]
  intro c hc
  have : c ≠ '@' := fun e => hn (e ▸ hc)
  simp [this]

theorem no_at_stripVersionFromPluginName (s : String) :
    '@' ∉ (stripVersionFromPluginName s).data := by
  rw [stripVersionFromPluginName_data]
  intro hm
  have := List.mem_takeWhile_imp hm
  simp at this

/-- C18: `stripVersionFromPluginName` removes the version suffix. For `n` without `@`,
the name `n@v` and the name `n` both give `n`. For every input `s` the result holds no `@`,
the input is the result followed by some rest, stripping the result again changes nothing,
and the read of the index 0 of the split finds an element. -/
theorem C18_strip_version (n v s : String) (hn : '@' ∉ n.data) :
    stripVersionFromPluginName (n ++ "@" ++ v) = n ∧
      stripVersionFromPluginName n = n ∧
      '@' ∉ (stripVersionFromPluginName s).data ∧
      (∃ rest : String, s = stripVersionFromPluginName s ++ rest) ∧
      stripVersionFromPluginName (stripVersionFromPluginName s) =
        stripVersionFromPluginName s ∧
      (stringsSplitAt s)[0]? = some (stripVersionFromPluginName s) := by
  refine ⟨?_, stripVersionFromPluginName_of_no_at n hn, no_at_stripVersionFromPluginName s,
    ?_, stripVersionFromPluginName_of_no_at _ (no_at_stripVersionFromPluginName s),
    stringsSplitAt_zero s⟩
  · apply String.ext
    rw [stripVersionFromPluginName_data]
    have hd : (n ++ "@" ++ v).data = n.data ++ '@' :: v.data := by
      simp only [String.data_append, List.append_assoc]
      rfl
    rw [hd, List.takeWhile_append_of_pos]
    · simp
    · intro c hc
      have : c ≠ '@' := fun e => hn (e ▸ hc)
      simp [this]
  · refine ⟨String.mk (s.data.dropWhile (fun c => !decide (c = '@'))), ?_⟩
    apply String.ext
    rw [String.data_append, stripVersionFromPluginName_data]
    exact (List.takeWhile_append_dropWhile _ _).symm

/-- C18 at the plugin name of the hub with the version `latest`, and at a name with two
`@`. -/
theorem C18_strip_version_witness :
    stripVersionFromPluginName
        ("hub.steampipe.io/plugins/turbot/aws" ++ "@" ++ "latest") =
        "hub.steampipe.io/plugins/turbot/aws" ∧
      '@' ∉ (stripVersionFromPluginName "aws@1@2").data ∧
      (stringsSplitAt "aws@1@2")[0]? = some (stripVersionFromPluginName "aws@1@2") :=
  ⟨(C18_strip_version "hub.steampipe.io/plugins/turbot/aws" "latest" "aws@1@2" (by decide)).1,
    (C18_strip_version "hub.steampipe.io/plugins/turbot/aws" "latest" "aws@1@2"
      (by decide)).2.2.1,
    (C18_strip_version "hub.steampipe.io/plugins/turbot/aws" "latest" "aws@1@2"
      (by decide)).2.2.2.2.2⟩

/-! ## The invariant of the marked plugins -/

/-- A visit that marks its plugin: the schema `v`, visited after the schemas `p₁` from the
state `st`, is not the temporary one, passes the guard of the unqualified names and has a
table. -/
theorem visitSchemas_marked_iff (schema : Metadata) (connectionMap : ConnectionMap)
    (k : String) (l : List SchemaVisit) :
    ∀ st : LoopState,
      marked (visitSchemas schema connectionMap st l).pluginSchemaMap k = true ↔
        marked st.pluginSchemaMap k = true ∨
          ∃ p₁ v p₂, l = p₁ ++ v :: p₂ ∧
            v.schemaName ≠ schema.TemporarySchemaName ∧
            addsUnqualified schema connectionMap
              (visitSchemas schema connectionMap st p₁).pluginSchemaMap v.schemaName = true ∧
            v.unqualifiedOrder ≠ [] ∧
            pluginOfThisSchema connectionMap v.schemaName = k := by
  induction l with
  | nil =>
    intro st
    simp [visitSchemas]
  | cons w l ih =>
    intro st
    rw [visitSchemas_cons, ih, visitSchema_marked]
    simp only [Bool.or_eq_true, Bool.and_eq_true, Bool.not_eq_true', decide_eq_false_iff_not,
      decide_eq_true_eq]
    constructor
    · rintro ((hm | ⟨⟨⟨hadd, hne⟩, htab⟩, hk⟩) | ⟨p₁, v, p₂, hl, hne, hadd, htab, hk⟩)
      · exact Or.inl hm
      · right
        refine ⟨[], w, l, rfl, hne, ?_, ?_, hk.symm⟩
        · simpa [visitSchemas] using hadd
        · intro hnil
          simp [hnil] at htab
      · right
        refine ⟨w :: p₁, v, p₂, by rw [hl]; rfl, hne, ?_, htab, hk⟩
        rw [visitSchemas_cons]
        exact hadd
    · rintro (hm | ⟨p₁, v, p₂, hl, hne, hadd, htab, hk⟩)
      · exact Or.inl (Or.inl hm)
      · cases p₁ with
        | nil =>
          simp only [List.nil_append, List.cons.injEq] at hl
          obtain ⟨rfl, rfl⟩ := hl
          left; right
          refine ⟨⟨⟨by simpa [visitSchemas] using hadd, hne⟩, ?_⟩, hk.symm⟩
          cases hts : w.unqualifiedOrder with
          | nil => exact absurd hts htab
          | cons t ts => rfl
        | cons u p₁ =>
          simp only [List.cons_append, List.cons.injEq] at hl
          obtain ⟨rfl, rfl⟩ := hl
          right
          refine ⟨p₁, v, p₂, rfl, hne, ?_, htab, hk⟩
          rw [visitSchemas_cons] at hadd
          exact hadd

/-- A schema without tables marks nothing. -/
theorem visitSchema_marks_of_no_table (schema : Metadata) (connectionMap : ConnectionMap)
    (st : LoopState) (v : SchemaVisit) (h : v.unqualifiedOrder = []) :
    (visitSchema schema connectionMap st v).pluginSchemaMap = st.pluginSchemaMap := by
  by_cases hadd : addsUnqualified schema connectionMap st.pluginSchemaMap v.schemaName = true
  · simp [visitSchema, hadd, h, unqualifiedLoop]
  · simp [visitSchema, hadd]

/-- C19: the invariant of `pluginSchemaMap`. After the visits `pre`, a plugin identity `k`
is marked exactly when it is the plugin identity (the empty string without a connection) of
a schema of `pre` that is not the temporary one, passed the guard of the unqualified names
when it was visited, and has a table. A schema is taken as already included
(`schemaOfSamePluginIncluded`) exactly when it has a connection and its stripped plugin name
is marked; a schema of the search path, or the temporary one, then adds nothing and
otherwise adds its tables. A schema without tables leaves the marks as they are. -/
theorem C19_marked_invariant (schema : Metadata) (connectionMap : ConnectionMap)
    (pre : List SchemaVisit) (k : String) :
    (marked (visitSchemas schema connectionMap LoopState.init pre).pluginSchemaMap k = true ↔
      ∃ p₁ v p₂, pre = p₁ ++ v :: p₂ ∧
        v.schemaName ≠ schema.TemporarySchemaName ∧
        addsUnqualified schema connectionMap
          (visitSchemas schema connectionMap LoopState.init p₁).pluginSchemaMap
          v.schemaName = true ∧
        v.unqualifiedOrder ≠ [] ∧
        pluginOfThisSchema connectionMap v.schemaName = k) ∧
    (∀ v : SchemaVisit,
      (schemaOfSamePluginIncluded connectionMap
          (visitSchemas schema connectionMap LoopState.init pre).pluginSchemaMap
          v.schemaName = true ↔
        (connectionMap.get? v.schemaName).isSome = true ∧
          marked (visitSchemas schema connectionMap LoopState.init pre).pluginSchemaMap
            (pluginOfThisSchema connectionMap v.schemaName) = true) ∧
      ((StringSliceContains schema.SearchPath v.schemaName = true ∨
          v.schemaName = schema.TemporarySchemaName) →
        (visitSchemas schema connectionMap LoopState.init
            (pre ++ [v])).unqualifiedTablesToAdd =
          (visitSchemas schema connectionMap LoopState.init pre).unqualifiedTablesToAdd ++
            (if schemaOfSamePluginIncluded connectionMap
                (visitSchemas schema connectionMap LoopState.init pre).pluginSchemaMap
                v.schemaName = true then []
              else v.unqualifiedOrder))) ∧
    (∀ (st : LoopState) (v : SchemaVisit), v.unqualifiedOrder = [] →
      (visitSchema schema connectionMap st v).pluginSchemaMap = st.pluginSchemaMap) := by
  refine ⟨?_, ?_, fun st v h => visitSchema_marks_of_no_table schema connectionMap st v h⟩
  · rw [visitSchemas_marked_iff, marked_init]
    simp
  · intro v
    refine ⟨?_, ?_⟩
    · simp [schemaOfSamePluginIncluded, hasConnectionForSchema]
    · intro hgate
      have hg : (StringSliceContains schema.SearchPath v.schemaName ||
          decide (v.schemaName = schema.TemporarySchemaName)) = true := by
        rcases hgate with h | h
        · simp [h]
        · simp [h]
      rw [visitSchemas_snoc, visitSchema_unqualified, unqualifiedContribution, addsUnqualified,
        hg]
      cases schemaOfSamePluginIncluded connectionMap
        (visitSchemas schema connectionMap LoopState.init pre).pluginSchemaMap
        v.schemaName <;> simp

/-- C19 at the two schemas `a` and `b` of the search path that use the plugin `p`: after
the visit of `a` the identity `p` is marked, and the visit of `b` adds nothing. -/
theorem C19_marked_invariant_witness :
    marked (visitSchemas sharedPluginMetadata sharedPluginConnections LoopState.init
        [⟨"a", ["x"], ["x"]⟩]).pluginSchemaMap "p" = true ∧
      (visitSchemas sharedPluginMetadata sharedPluginConnections LoopState.init
          ([⟨"a", ["x"], ["x"]⟩] ++ [⟨"b", ["y"], ["y"]⟩])).unqualifiedTablesToAdd =
        (visitSchemas sharedPluginMetadata sharedPluginConnections LoopState.init
          [⟨"a", ["x"], ["x"]⟩]).unqualifiedTablesToAdd ++
          (if schemaOfSamePluginIncluded sharedPluginConnections
              (visitSchemas sharedPluginMetadata sharedPluginConnections LoopState.init
                [⟨"a", ["x"], ["x"]⟩]).pluginSchemaMap "b" = true then []
            else ["y"]) :=
  ⟨(C19_marked_invariant sharedPluginMetadata sharedPluginConnections [⟨"a", ["x"], ["x"]⟩]
      "p").1.2 ⟨[], ⟨"a", ["x"], ["x"]⟩, [], rfl, by decide, by decide, by decide, by decide⟩,
    ((C19_marked_invariant sharedPluginMetadata sharedPluginConnections [⟨"a", ["x"], ["x"]⟩]
      "p").2.1 ⟨"b", ["y"], ["y"]⟩).2 (Or.inl (by decide))⟩

/-! ## `validateIgnoringPrerelease` -/

/-- C20: the plugin SDK version 1.2.5 is greater than the Steampipe SDK version 1.2.3,
prerelease tags ignored, and `validateIgnoringPrerelease` returns true: it compares the
segments 0 and 1 only. -/
theorem C20_counterexample_patch_segment :
    versionGreaterIgnoringPrerelease ⟨[1, 2, 5], ""⟩ ⟨[1, 2, 3], ""⟩ = true ∧
      validateIgnoringPrerelease ⟨[1, 2, 5], ""⟩ ⟨[1, 2, 3], ""⟩ = some true := by
  decide

end Steampipe
